import Mathlib

/-!
Verification of the todo-list task-tracking data layer
(`src/model/services/IndexStore.ts`, `src/model/validation.ts`,
`src/model/services/TaskService.ts`, `SearchService.ts`, `DataRepository.ts`).

The TypeScript classes are shallowly embedded as pure Lean functions over an
explicit `IndexStore` state record.  JavaScript `Map` objects are modelled as
insertion-ordered association lists and `Set` objects as insertion-ordered
duplicate-free lists, with operations mirroring the JS semantics (`Map.set`
overwrites in place, `Set.add` appends when absent, `Set.delete` filters).
Timestamps (ISO strings compared through `Date`) are modelled as natural
numbers of milliseconds; identifiers (UUID strings) keep their string type so
that JavaScript string truthiness (`""` is falsy) can be modelled exactly.
-/

namespace Todo

/-- Identifier type: UUID strings in the source (`type ID = string`). -/
abbrev ID := String

/-- Task status, `type Status = 'todo' | 'doing' | 'done' | 'archived'`. -/
inductive Status where
  | todo
  | doing
  | done
  | archived
deriving DecidableEq, Repr

/-- Priorities are the numbers 1..5 in the source; we use `Nat`. -/
abbrev Priority := Nat

/-- Core task entity (`interface Task` in `entities.ts`). -/
structure Task where
  id : ID
  title : String
  notes : Option String := none
  status : Status
  priority : Priority
  projectId : Option ID := none
  tags : List ID := []
  createdAt : Nat
  updatedAt : Nat
  dueAt : Option Nat := none
  completedAt : Option Nat := none
deriving DecidableEq, Repr

/-- Project entity (`interface Project`). -/
structure Project where
  id : ID
  name : String
  order : Nat
  parentId : Option ID := none
  createdAt : Nat
  updatedAt : Nat
deriving DecidableEq, Repr

/-- Tag entity (`interface Tag`). -/
structure Tag where
  id : ID
  name : String
  color : Option String := none
  createdAt : Nat
  updatedAt : Nat
deriving DecidableEq, Repr

/-! ### JavaScript `Map` and `Set` as association lists -/

/-- `Map.get`: first binding of the key, if any. -/
def mget [DecidableEq κ] : List (κ × ν) → κ → Option ν
  | [], _ => none
  | (a, b) :: m, key => if a = key then some b else mget m key

/-- `Map.set`: overwrite the binding in place, or append a fresh one. -/
def mset [DecidableEq κ] : List (κ × ν) → κ → ν → List (κ × ν)
  | [], key, val => [(key, val)]
  | (a, b) :: m, key, val =>
    if a = key then (key, val) :: m else (a, b) :: mset m key val

/-- `Map.delete`: drop every binding of the key. -/
def mdel [DecidableEq κ] (m : List (κ × ν)) (key : κ) : List (κ × ν) :=
  m.filter (fun e => e.fst ≠ key)

/-- `Map.keys()` in iteration order. -/
def keysOf (m : List (κ × ν)) : List κ := m.map Prod.fst

/-- `Set.add`: append the element when it is not yet present. -/
def sAdd (s : List ID) (x : ID) : List ID := if x ∈ s then s else s ++ [x]

/-- `Set.delete`: remove the element. -/
def sDel (s : List ID) (x : ID) : List ID := s.filter (· ≠ x)

/-! ### Index buckets (`Map<K, Set<ID>>`) -/

/-- Insert into a bucket, creating it lazily
(`if (!m.has(k)) m.set(k, new Set()); m.get(k)!.add(id)`). -/
def addToBucket [DecidableEq κ] (m : List (κ × List ID)) (key : κ) (id : ID) :
    List (κ × List ID) :=
  mset m key (sAdd ((mget m key).getD []) id)

/-- Remove from a bucket, deleting the bucket entirely once empty
(`const b = m.get(k); if (b) { b.delete(id); if (b.size === 0) m.delete(k) }`). -/
def removeFromBucket [DecidableEq κ] (m : List (κ × List ID)) (key : κ) (id : ID) :
    List (κ × List ID) :=
  match mget m key with
  | none => m
  | some b =>
    let b' := sDel b id
    if b' = [] then mdel m key else mset m key b'

/-- Membership of a task id in the bucket for `key` (false when the bucket is absent). -/
def bucketMem [DecidableEq κ] (m : List (κ × List ID)) (key : κ) (id : ID) : Bool :=
  match mget m key with
  | none => false
  | some b => decide (id ∈ b)

/-- Fold of `task.tags.forEach(tagId => { ...add... })`. -/
def addTagsToBuckets (m : List (ID × List ID)) (tags : List ID) (id : ID) :
    List (ID × List ID) :=
  tags.foldl (fun mm tg => addToBucket mm tg id) m

/-- Fold of `task.tags.forEach(tagId => { ...delete... })`. -/
def removeTagsFromBuckets (m : List (ID × List ID)) (tags : List ID) (id : ID) :
    List (ID × List ID) :=
  tags.foldl (fun mm tg => removeFromBucket mm tg id) m

/-! ### The `IndexStore` state -/

/-- State of the `IndexStore` class: canonical entity maps, the four
secondary index bucket maps, and the derived overdue set. -/
structure IndexStore where
  tasks : List (ID × Task) := []
  projects : List (ID × Project) := []
  tags : List (ID × Tag) := []
  tagByName : List (String × Tag) := []
  tasksByProject : List (ID × List ID) := []
  tasksByTag : List (ID × List ID) := []
  tasksByStatus : List (Status × List ID) := []
  tasksByPriority : List (Priority × List ID) := []
  overdueTasks : List ID := []
deriving DecidableEq, Repr

/-- Lower-casing of a string via its character list
(models JavaScript `toLowerCase()`). -/
def strLower (s : String) : String := String.mk (s.data.map Char.toLower)

/-- Snapshot overdue predicate
(`task.dueAt && new Date(task.dueAt) < new Date() && task.status !== 'done'`). -/
def isOverdueAt (t : Task) (now : Nat) : Bool :=
  match t.dueAt with
  | none => false
  | some d => decide (d < now) && decide (t.status ≠ Status.done)

namespace IndexStore

/-- `IndexStore.updateTaskIndexes(task)`; `now` is the implicit clock read by
`new Date()`. -/
def updateTaskIndexes (s : IndexStore) (t : Task) (now : Nat) : IndexStore :=
  { s with
    tasksByProject :=
      match t.projectId with
      | some pid =>
        if pid ≠ "" then addToBucket s.tasksByProject pid t.id else s.tasksByProject
      | none => s.tasksByProject,
    tasksByTag := addTagsToBuckets s.tasksByTag t.tags t.id,
    tasksByStatus := addToBucket s.tasksByStatus t.status t.id,
    tasksByPriority := addToBucket s.tasksByPriority t.priority t.id,
    overdueTasks :=
      if isOverdueAt t now then sAdd s.overdueTasks t.id
      else sDel s.overdueTasks t.id }

/-- `IndexStore.removeTaskFromIndexes(task)`. -/
def removeTaskFromIndexes (s : IndexStore) (t : Task) : IndexStore :=
  { s with
    tasksByProject :=
      match t.projectId with
      | some pid =>
        if pid ≠ "" then removeFromBucket s.tasksByProject pid t.id
        else s.tasksByProject
      | none => s.tasksByProject,
    tasksByTag := removeTagsFromBuckets s.tasksByTag t.tags t.id,
    tasksByStatus := removeFromBucket s.tasksByStatus t.status t.id,
    tasksByPriority := removeFromBucket s.tasksByPriority t.priority t.id,
    overdueTasks := sDel s.overdueTasks t.id }

/-- `IndexStore.addTask(task)`. -/
def addTask (s : IndexStore) (t : Task) (now : Nat) : IndexStore :=
  updateTaskIndexes { s with tasks := mset s.tasks t.id t } t now

/-- `IndexStore.updateTask(task)`. -/
def updateTask (s : IndexStore) (t : Task) (now : Nat) : IndexStore :=
  let s1 :=
    match mget s.tasks t.id with
    | some oldTask => removeTaskFromIndexes s oldTask
    | none => s
  updateTaskIndexes { s1 with tasks := mset s1.tasks t.id t } t now

/-- `IndexStore.removeTask(id)`. -/
def removeTask (s : IndexStore) (id : ID) : IndexStore :=
  match mget s.tasks id with
  | some t =>
    let s1 := removeTaskFromIndexes s t
    { s1 with tasks := mdel s1.tasks id }
  | none => s

/-- `IndexStore.addProject(project)`. -/
def addProject (s : IndexStore) (p : Project) : IndexStore :=
  { s with projects := mset s.projects p.id p }

/-- `IndexStore.removeProject(id)`. -/
def removeProject (s : IndexStore) (id : ID) : IndexStore :=
  { s with projects := mdel s.projects id }

/-- `IndexStore.addTag(tag)`. -/
def addTag (s : IndexStore) (tg : Tag) : IndexStore :=
  { s with
    tags := mset s.tags tg.id tg,
    tagByName := mset s.tagByName (strLower tg.name) tg }

/-- `IndexStore.getTagByName(name)`. -/
def getTagByName (s : IndexStore) (name : String) : Option Tag :=
  mget s.tagByName (strLower name)

/-- `IndexStore.getAllProjects()`. -/
def getAllProjects (s : IndexStore) : List Project := s.projects.map Prod.snd

end IndexStore

/-! ### Index-consistency invariant -/

/-- Consistency of the secondary indexes with the canonical task map: every
bucket holds exactly the ids of the stored tasks whose field matches the
bucket key, and the overdue set only holds ids of stored tasks. -/
structure Consistent (s : IndexStore) : Prop where
  keyOk : ∀ id t, mget s.tasks id = some t → t.id = id
  statusOk : ∀ st y, bucketMem s.tasksByStatus st y = true ↔
      ∃ t, mget s.tasks y = some t ∧ t.status = st
  prioOk : ∀ p y, bucketMem s.tasksByPriority p y = true ↔
      ∃ t, mget s.tasks y = some t ∧ t.priority = p
  tagOk : ∀ tg y, bucketMem s.tasksByTag tg y = true ↔
      ∃ t, mget s.tasks y = some t ∧ tg ∈ t.tags
  projOk : ∀ pid y, bucketMem s.tasksByProject pid y = true ↔
      ∃ t, mget s.tasks y = some t ∧ t.projectId = some pid ∧ pid ≠ ""
  overdueOk : ∀ y, y ∈ s.overdueTasks → ∃ t, mget s.tasks y = some t

/-! ### Sequences of store mutations -/

/-- One mutation of the task store. -/
inductive StoreOp where
  | addT (t : Task) (now : Nat)
  | updT (t : Task) (now : Nat)
  | remT (id : ID)
deriving DecidableEq, Repr

/-- Apply one mutation. -/
def applyOp (s : IndexStore) : StoreOp → IndexStore
  | .addT t now => IndexStore.addTask s t now
  | .updT t now => IndexStore.updateTask s t now
  | .remT id => IndexStore.removeTask s id

/-- Freshness requirement for a single operation: an `addTask` must use an id
not currently in the store (the service layer guarantees this: `create`
always generates a fresh UUID). -/
def opHd (s : IndexStore) : StoreOp → Bool
  | .addT t _ => (mget s.tasks t.id).isNone
  | _ => true

/-- A sequence of mutations is well-formed when every `addTask` along the way
uses a fresh id. -/
def opsOk (s : IndexStore) : List StoreOp → Bool
  | [] => true
  | op :: rest => opHd s op && opsOk (applyOp s op) rest

/-- Run a sequence of mutations from the empty store. -/
def runOps (ops : List StoreOp) : IndexStore := ops.foldl applyOp {}

/-! ### The query engine (`IndexStore.searchTasks`) -/

/-- JavaScript truthiness of an optional string (`undefined` and `""` are falsy). -/
def textTruthy : Option String → Bool
  | none => false
  | some s => decide (s ≠ "")

/-- JavaScript truthiness of an optional id string. -/
def idTruthy : Option ID → Bool
  | none => false
  | some s => decide (s ≠ "")

/-- Sort field (`type SortField`). -/
inductive SortField where
  | title
  | priority
  | createdAt
  | updatedAt
  | dueAt
deriving DecidableEq, Repr

/-- Sort direction (`type SortDirection = 'asc' | 'desc'`). -/
inductive SortDirection where
  | asc
  | desc
deriving DecidableEq, Repr

/-- A sort specification (`{ field, dir }`). -/
structure SortSpec where
  field : SortField
  dir : SortDirection
deriving DecidableEq, Repr

/-- Search query (`interface SearchQuery`), all fields optional. -/
structure SearchQuery where
  text : Option String := none
  statuses : Option (List Status) := none
  priorities : Option (List Priority) := none
  tags : Option (List ID) := none
  projectId : Option ID := none
  dueBefore : Option Nat := none
  sort : Option SortSpec := none
deriving DecidableEq, Repr

/-- Hydrated search result (`interface TaskListItem`). -/
structure TaskListItem where
  task : Task
  project : Option Project := none
  tagObjects : List Tag := []
  isOverdue : Bool
  daysUntilDue : Option Int := none
deriving DecidableEq, Repr

/-- Does the first character list lead the second (initial-segment test)? -/
def leadsOf : List Char → List Char → Bool
  | [], _ => true
  | _ :: _, [] => false
  | a :: as, b :: bs => a == b && leadsOf as bs

/-- JavaScript `String.prototype.includes` on character lists. -/
def containsSeq : List Char → List Char → Bool
  | [], needle => needle.isEmpty
  | c :: rest, needle => leadsOf needle (c :: rest) || containsSeq rest needle

/-- Case-insensitive substring test used by the free-text filter
(`hay.toLowerCase().includes(txt.toLowerCase())`). -/
def strContainsLower (hay txt : String) : Bool :=
  containsSeq (strLower hay).data (strLower txt).data

/-- Union of the buckets of the given keys, in insertion order, modelling
`keys.forEach(k => { const ids = m.get(k); if (ids) ids.forEach(add) })`. -/
def unionBuckets [DecidableEq κ] (m : List (κ × List ID)) (ks : List κ) : List ID :=
  ks.foldl (fun acc key => ((mget m key).getD []).foldl sAdd acc) []

/-- Condition of the fast path
(`!query.text && !query.statuses && !query.priorities && !query.tags &&
!query.projectId && !query.dueBefore`); note that a present-but-empty array
is truthy in JavaScript. -/
def noFilters (q : SearchQuery) : Bool :=
  !textTruthy q.text && q.statuses.isNone && q.priorities.isNone && q.tags.isNone
    && !idTruthy q.projectId && q.dueBefore.isNone

/-- First stage of `searchTasks`: the status category
(`if (query.statuses && query.statuses.length > 0) {...} else {all ids}`). -/
def statusFiltered (s : IndexStore) (q : SearchQuery) : List ID :=
  match q.statuses with
  | some sts =>
    if sts.isEmpty then keysOf s.tasks else unionBuckets s.tasksByStatus sts
  | none => keysOf s.tasks

/-- Priority category: intersect with the union of the priority buckets. -/
def priorityFiltered (s : IndexStore) (q : SearchQuery) : List ID :=
  match q.priorities with
  | some ps =>
    if ps.isEmpty then statusFiltered s q
    else (statusFiltered s q).filter
      (fun id => decide (id ∈ unionBuckets s.tasksByPriority ps))
  | none => statusFiltered s q

/-- Tag category: intersect with the union of the tag buckets. -/
def tagFiltered (s : IndexStore) (q : SearchQuery) : List ID :=
  match q.tags with
  | some tgs =>
    if tgs.isEmpty then priorityFiltered s q
    else (priorityFiltered s q).filter
      (fun id => decide (id ∈ unionBuckets s.tasksByTag tgs))
  | none => priorityFiltered s q

/-- Project category: intersect with the project bucket, or collapse to empty
when the bucket is absent. -/
def projectFiltered (s : IndexStore) (q : SearchQuery) : List ID :=
  match q.projectId with
  | some pid =>
    if pid = "" then tagFiltered s q
    else
      match mget s.tasksByProject pid with
      | some b => (tagFiltered s q).filter (fun id => decide (id ∈ b))
      | none => []
  | none => tagFiltered s q

/-- Residual scan for `dueBefore` (`new Date(task.dueAt) <= dueDate`). -/
def dueFiltered (s : IndexStore) (q : SearchQuery) : List ID :=
  match q.dueBefore with
  | some cutoff =>
    (projectFiltered s q).filter (fun id =>
      match mget s.tasks id with
      | some t =>
        match t.dueAt with
        | some d => decide (d ≤ cutoff)
        | none => false
      | none => false)
  | none => projectFiltered s q

/-- Residual case-insensitive free-text scan over title or notes. -/
def textFiltered (s : IndexStore) (q : SearchQuery) : List ID :=
  match q.text with
  | some txt =>
    if txt = "" then dueFiltered s q
    else
      (dueFiltered s q).filter (fun id =>
        match mget s.tasks id with
        | some t =>
          strContainsLower t.title txt ||
            (match t.notes with
             | some n => decide (n ≠ "") && strContainsLower n txt
             | none => false)
        | none => false)
  | none => dueFiltered s q

/-- Candidate id computation of `searchTasks` (everything before hydration):
the fast path when no filter is specified, otherwise the filter chain. -/
def candidateIds (s : IndexStore) (q : SearchQuery) : List ID :=
  if noFilters q then keysOf s.tasks else textFiltered s q

/-- Ceiling of the rational `a / b` for positive `b` (`Math.ceil`). -/
def ceilDiv (a b : Int) : Int := -(Int.fdiv (-a) b)

/-- Milliseconds per day (`1000 * 60 * 60 * 24`). -/
def msPerDay : Nat := 1000 * 60 * 60 * 24

/-- Hydration of one candidate id into a `TaskListItem`
(the loop body `for (const taskId of taskIds) { ... results.push(...) }`). -/
def hydrateOne (s : IndexStore) (now : Nat) (tid : ID) : Option TaskListItem :=
  match mget s.tasks tid with
  | none => none
  | some task =>
    some { task := task,
           project :=
             match task.projectId with
             | some pid => if pid = "" then none else mget s.projects pid
             | none => none,
           tagObjects := task.tags.filterMap (fun tagId => mget s.tags tagId),
           isOverdue := isOverdueAt task now,
           daysUntilDue :=
             match task.dueAt with
             | some d => some (ceilDiv ((d : Int) - (now : Int)) (msPerDay : Int))
             | none => none }

/-- `Number.MAX_SAFE_INTEGER`, the stand-in due date of tasks without one. -/
def maxSafeInteger : Int := 9007199254740991

/-- Value of one side of the sort comparator (`aValue` / `bValue`). -/
inductive SortVal where
  | vstr (s : String)
  | vnum (n : Int)
deriving DecidableEq, Repr

/-- Key extraction of the sort comparator's `switch (field)`. -/
def sortValOf (f : SortField) (item : TaskListItem) : SortVal :=
  match f with
  | .title => .vstr (strLower item.task.title)
  | .priority => .vnum (item.task.priority : Int)
  | .createdAt => .vnum (item.task.createdAt : Int)
  | .updatedAt => .vnum (item.task.updatedAt : Int)
  | .dueAt =>
    .vnum (match item.task.dueAt with
           | some d => (d : Int)
           | none => maxSafeInteger)

/-- JavaScript `<` on the two comparator values (same field, so same kind). -/
def svLt : SortVal → SortVal → Bool
  | .vstr a, .vstr b => decide (a < b)
  | .vnum a, .vnum b => decide (a < b)
  | _, _ => false

/-- The sort comparator passed to `results.sort`. -/
def sortCmp (sp : SortSpec) (a b : TaskListItem) : Int :=
  let av := sortValOf sp.field a
  let bv := sortValOf sp.field b
  if svLt av bv then (if sp.dir = SortDirection.asc then -1 else 1)
  else if svLt bv av then (if sp.dir = SortDirection.asc then 1 else -1)
  else 0

/-- The non-strict order induced by the comparator (`compare(a,b) <= 0`),
which is what a stable comparison sort orders by. -/
def sortLe (sp : SortSpec) (a b : TaskListItem) : Bool := decide (sortCmp sp a b ≤ 0)

instance sortLeRelDecidable (sp : SortSpec) :
    DecidableRel (fun a b : TaskListItem => sortLe sp a b = true) :=
  fun _ _ => instDecidableEqBool _ _

/-- `IndexStore.searchTasks(query)`: candidate ids, hydration, then a stable
sort by the comparator (JavaScript `Array.prototype.sort` is stable; we use
insertion sort, which computes the same stable result). -/
def IndexStore.searchTasks (s : IndexStore) (q : SearchQuery) (now : Nat) :
    List TaskListItem :=
  let results := (candidateIds s q).filterMap (hydrateOne s now)
  match q.sort with
  | some sp => List.insertionSort (fun a b => sortLe sp a b = true) results
  | none => results

/-- Constraint of the status category (`sts` specified and nonempty forces
membership). -/
def statusCond (q : SearchQuery) (t : Task) : Prop :=
  match q.statuses with
  | some sts => sts ≠ [] → t.status ∈ sts
  | none => True

/-- Constraint of the priority category. -/
def prioCond (q : SearchQuery) (t : Task) : Prop :=
  match q.priorities with
  | some ps => ps ≠ [] → t.priority ∈ ps
  | none => True

/-- Constraint of the tag category (at least one of the given tags). -/
def tagCond (q : SearchQuery) (t : Task) : Prop :=
  match q.tags with
  | some tgs => tgs ≠ [] → ∃ tg ∈ tgs, tg ∈ t.tags
  | none => True

/-- Constraint of the project category. -/
def projCond (q : SearchQuery) (t : Task) : Prop :=
  match q.projectId with
  | some pid => pid ≠ "" → t.projectId = some pid
  | none => True

/-- Conjunction of the four category constraints (AND across categories). -/
def catCond (q : SearchQuery) (t : Task) : Prop :=
  statusCond q t ∧ prioCond q t ∧ tagCond q t ∧ projCond q t

/-! ### Validation layer (`validation.ts`) -/

/-- `CreateTaskInput` (title required, everything else optional). -/
structure CreateTaskInput where
  title : String
  notes : Option String := none
  status : Option Status := none
  priority : Option Priority := none
  projectId : Option ID := none
  tags : Option (List ID) := none
  dueAt : Option Nat := none
deriving DecidableEq, Repr

/-- `UpdateTaskInput` (id required, partial update; an absent property is
`none`). -/
structure UpdateTaskInput where
  id : ID
  title : Option String := none
  notes : Option String := none
  status : Option Status := none
  priority : Option Priority := none
  projectId : Option ID := none
  tags : Option (List ID) := none
  dueAt : Option Nat := none
deriving DecidableEq, Repr

/-- `CreateTagInput`. -/
structure CreateTagInput where
  name : String
  color : Option String := none
deriving DecidableEq, Repr

/-- A validation error; the source also carries the offending `value : any`,
which has no typed counterpart here. -/
structure ValidationError where
  field : String
  message : String
deriving DecidableEq, Repr

/-- JavaScript `String.prototype.trim` over the character list. -/
def jsTrim (s : String) : String :=
  String.mk (((s.data.dropWhile Char.isWhitespace).reverse.dropWhile
    Char.isWhitespace).reverse)

/-- Hexadecimal digit (the `/i` regexes accept both cases). -/
def isHexDigit (c : Char) : Bool :=
  c.isDigit || ('a' ≤ c && c ≤ 'f') || ('A' ≤ c && c ≤ 'F')

/-- Consume exactly `n` hex digits, returning the remainder. -/
def hexRun : Nat → List Char → Option (List Char)
  | 0, rest => some rest
  | Nat.succ k, c :: rest => if isHexDigit c then hexRun k rest else none
  | Nat.succ _, [] => none

/-- The v4-UUID regex
`/^[0-9a-f]{8}-[0-9a-f]{4}-4[0-9a-f]{3}-[89ab][0-9a-f]{3}-[0-9a-f]{12}$/i`. -/
def isValidUuid (s : String) : Bool :=
  match hexRun 8 s.data with
  | none => false
  | some r1 =>
    match r1 with
    | '-' :: r2 =>
      match hexRun 4 r2 with
      | none => false
      | some r3 =>
        match r3 with
        | '-' :: '4' :: r4 =>
          match hexRun 3 r4 with
          | none => false
          | some r5 =>
            match r5 with
            | '-' :: v :: r6 =>
              if v = '8' || v = '9' || v = 'a' || v = 'b' || v = 'A' || v = 'B' then
                match hexRun 3 r6 with
                | none => false
                | some r7 =>
                  match r7 with
                  | '-' :: r8 =>
                    match hexRun 12 r8 with
                    | some [] => true
                    | _ => false
                  | _ => false
              else false
            | _ => false
        | _ => false
    | _ => false

/-- The 16 blessed color names accepted by `isValidColor`. -/
def blessedColors : List String :=
  ["black", "red", "green", "yellow", "blue", "magenta", "cyan", "white",
   "lightblack", "lightred", "lightgreen", "lightyellow", "lightblue",
   "lightmagenta", "lightcyan", "lightwhite"]

/-- `isValidColor`: `#` plus six hex digits, or a blessed color name. -/
def isValidColor (c : String) : Bool :=
  (match c.data with
   | '#' :: rest => decide (rest.length = 6) && rest.all isHexDigit
   | _ => false) ||
  decide (strLower c ∈ blessedColors)

/-- `validateTaskInput` on an `UpdateTaskInput` (the `'field' in input`
presence tests become `Option` matches).  The `status` and `dueAt` checks of
the source are vacuous here because `Status` and timestamps are typed. -/
def validateTaskInputU (input : UpdateTaskInput) : List ValidationError :=
  (match input.title with
   | some ttl =>
     if ttl = "" ∨ jsTrim ttl = "" then [⟨"title", "Title is required"⟩] else []
   | none => []) ++
  (match input.title with
   | some ttl =>
     if ttl ≠ "" ∧ ttl.length > 200 then
       [⟨"title", "Title must be 200 characters or less"⟩]
     else []
   | none => []) ++
  (match input.priority with
   | some p =>
     if ¬(p = 1 ∨ p = 2 ∨ p = 3 ∨ p = 4 ∨ p = 5) then
       [⟨"priority", "Priority must be between 1 and 5"⟩]
     else []
   | none => []) ++
  (match input.tags with
   | some tgs =>
     if tgs.any (fun tg => !(isValidUuid tg)) then
       [⟨"tags", "All tags must be valid UUIDs"⟩]
     else []
   | none => [])

/-- `validateTaskInput` on a `CreateTaskInput` (title always present). -/
def validateTaskInputC (input : CreateTaskInput) : List ValidationError :=
  (if input.title = "" ∨ jsTrim input.title = "" then
     [⟨"title", "Title is required"⟩]
   else []) ++
  (if input.title ≠ "" ∧ input.title.length > 200 then
     [⟨"title", "Title must be 200 characters or less"⟩]
   else []) ++
  (match input.priority with
   | some p =>
     if ¬(p = 1 ∨ p = 2 ∨ p = 3 ∨ p = 4 ∨ p = 5) then
       [⟨"priority", "Priority must be between 1 and 5"⟩]
     else []
   | none => []) ++
  (match input.tags with
   | some tgs =>
     if tgs.any (fun tg => !(isValidUuid tg)) then
       [⟨"tags", "All tags must be valid UUIDs"⟩]
     else []
   | none => [])

/-- `validateTagInput` on a `CreateTagInput` (name always present; `color`
is a present key whose value may be `undefined`, and `""` is falsy). -/
def validateTagInput (input : CreateTagInput) : List ValidationError :=
  (if input.name = "" ∨ jsTrim input.name = "" then
     [⟨"name", "Name is required"⟩]
   else []) ++
  (if input.name ≠ "" ∧ input.name.length > 50 then
     [⟨"name", "Name must be 50 characters or less"⟩]
   else []) ++
  (match input.color with
   | some c =>
     if c ≠ "" ∧ ¬(isValidColor c = true) then
       [⟨"color", "Color must be a valid hex color or blessed color name"⟩]
     else []
   | none => [])

/-- `createTask(input)`: factory with defaults; `now` models
`getCurrentTimestamp()` and `newId` models `generateId()`. -/
def createTask (input : CreateTaskInput) (now : Nat) (newId : ID) : Task :=
  { id := newId,
    title := input.title,
    notes := input.notes,
    status := input.status.getD Status.todo,
    priority := input.priority.getD 3,
    projectId := input.projectId,
    tags := input.tags.getD [],
    createdAt := now,
    updatedAt := now,
    dueAt := input.dueAt,
    completedAt := if input.status = some Status.done then some now else none }

/-- `updateTask(task, input)` of `validation.ts`: field-by-field overwrite,
with `completedAt` recomputed exactly when a `status` is supplied. -/
def updateTask (task : Task) (input : UpdateTaskInput) (now : Nat) : Task :=
  let u := task
  let u := match input.title with
    | some v => { u with title := v }
    | none => u
  let u := match input.notes with
    | some v => { u with notes := some v }
    | none => u
  let u := match input.status with
    | some v =>
      { u with status := v,
               completedAt := if v = Status.done then some now else none }
    | none => u
  let u := match input.priority with
    | some v => { u with priority := v }
    | none => u
  let u := match input.projectId with
    | some v => { u with projectId := some v }
    | none => u
  let u := match input.tags with
    | some v => { u with tags := v }
    | none => u
  let u := match input.dueAt with
    | some v => { u with dueAt := some v }
    | none => u
  { u with updatedAt := now }

/-- `createTag(input)`. -/
def createTag (input : CreateTagInput) (now : Nat) (newId : ID) : Tag :=
  { id := newId,
    name := input.name,
    color := input.color,
    createdAt := now,
    updatedAt := now }

/-! ### Service layer (`TaskService.ts`, `DataRepository.ts`) -/

/-- `Result<T>`: `success(data)` or `failure(error)`. -/
inductive SvcResult (α : Type) where
  | ok (value : α)
  | err (message : String)
deriving DecidableEq, Repr

/-- `errors.map(e => e.message).join(', ')`. -/
def joinComma : List String → String
  | [] => ""
  | [x] => x
  | x :: xs => x ++ ", " ++ joinComma xs

namespace TaskService

/-- `TaskService.create(input)`. -/
def create (s : IndexStore) (input : CreateTaskInput) (now : Nat) (newId : ID) :
    SvcResult Task × IndexStore :=
  let errs := validateTaskInputC input
  if errs ≠ [] then
    (.err ("Validation failed: " ++ joinComma (errs.map (fun e => e.message))), s)
  else
    let task := createTask input now newId
    (.ok task, IndexStore.addTask s task now)

/-- `TaskService.update(input)`: existence check first, then validation,
then the store update. -/
def update (s : IndexStore) (input : UpdateTaskInput) (now : Nat) :
    SvcResult Task × IndexStore :=
  match mget s.tasks input.id with
  | none => (.err ("Task with ID " ++ input.id ++ " not found"), s)
  | some existingTask =>
    let errs := validateTaskInputU input
    if errs ≠ [] then
      (.err ("Validation failed: " ++ joinComma (errs.map (fun e => e.message))), s)
    else
      let updatedTask := updateTask existingTask input now
      (.ok updatedTask, IndexStore.updateTask s updatedTask now)

/-- `TaskService.remove(id)`: existence check first. -/
def remove (s : IndexStore) (id : ID) : SvcResult Unit × IndexStore :=
  match mget s.tasks id with
  | none => (.err ("Task with ID " ++ id ++ " not found"), s)
  | some _ => (.ok (), IndexStore.removeTask s id)

end TaskService

namespace TagService

/-- `TagService.create(input)`. -/
def create (s : IndexStore) (input : CreateTagInput) (now : Nat) (newId : ID) :
    SvcResult Tag × IndexStore :=
  let errs := validateTagInput input
  if errs ≠ [] then
    (.err ("Validation failed: " ++ joinComma (errs.map (fun e => e.message))), s)
  else
    let tag := createTag input now newId
    (.ok tag, IndexStore.addTag s tag)

/-- `TagService.getOrCreate(name, color)`: case-insensitive lookup by name
first; the supplied color is ignored when the tag already exists. -/
def getOrCreate (s : IndexStore) (name : String) (color : Option String)
    (now : Nat) (newId : ID) : SvcResult Tag × IndexStore :=
  match IndexStore.getTagByName s name with
  | some existing => (.ok existing, s)
  | none => create s ⟨name, color⟩ now newId

end TagService

/-! ### Text query parser (`SearchService.parseQuery`) -/

/-- Splitter core of `queryString.trim().split(/\s+/)`: groups maximal
non-whitespace runs of an already-trimmed character list. -/
def wsSplitGo : List Char → List Char → List String
  | [], acc => if acc.isEmpty then [] else [String.mk acc.reverse]
  | c :: rest, acc =>
    if c.isWhitespace then
      (if acc.isEmpty then wsSplitGo rest []
       else String.mk acc.reverse :: wsSplitGo rest [])
    else wsSplitGo rest (c :: acc)

/-- `queryString.trim().split(/\s+/)`; splitting the empty string yields the
single token `""` in JavaScript. -/
def tokenizeQuery (s : String) : List String :=
  let t := jsTrim s
  if t = "" then [""] else wsSplitGo t.data []

/-- `token.startsWith(pre)`. -/
def strStarts (s pre : String) : Bool := leadsOf pre.data s.data

/-- `token.substring(n)`. -/
def strDropn (s : String) (n : Nat) : String := String.mk (s.data.drop n)

/-- The `['todo','doing','done','archived'].includes(status)` check combined
with the string-to-status reading. -/
def statusOfString (s : String) : Option Status :=
  if s = "todo" then some Status.todo
  else if s = "doing" then some Status.doing
  else if s = "done" then some Status.done
  else if s = "archived" then some Status.archived
  else none

/-- Value of a digit run. -/
def digitsToNat (ds : List Char) : Nat :=
  ds.foldl (fun acc c => acc * 10 + (c.toNat - '0'.toNat)) 0

/-- Maximal leading digit run, `none` when there is none. -/
def parseDigits (cs : List Char) : Option Nat :=
  let ds := cs.takeWhile Char.isDigit
  if ds.isEmpty then none else some (digitsToNat ds)

/-- JavaScript `parseInt` restricted to the whitespace-free tokens produced
by the splitter: optional sign, then the maximal leading digit run (`NaN`
becomes `none`; trailing garbage is ignored, as in `parseInt('3abc')`). -/
def parseIntJs (s : String) : Option Int :=
  match s.data with
  | '-' :: rest => (parseDigits rest).map (fun n => -(n : Int))
  | '+' :: rest => (parseDigits rest).map (fun n => (n : Int))
  | cs => (parseDigits cs).map (fun n => (n : Int))

/-- Sort-field names accepted by the `sort:` token. -/
def sortFieldOfString (s : String) : Option SortField :=
  if s = "title" then some SortField.title
  else if s = "priority" then some SortField.priority
  else if s = "createdAt" then some SortField.createdAt
  else if s = "updatedAt" then some SortField.updatedAt
  else if s = "dueAt" then some SortField.dueAt
  else none

/-- Sort directions accepted by the `sort:` token. -/
def sortDirOfString (s : String) : Option SortDirection :=
  if s = "asc" then some SortDirection.asc
  else if s = "desc" then some SortDirection.desc
  else none

/-- `str.split(':')` on character lists. -/
def splitOnChar (sep : Char) : List Char → List (List Char)
  | [] => [[]]
  | c :: rest =>
    match splitOnChar sep rest with
    | [] => [[c]]
    | g :: gs => if c == sep then [] :: g :: gs else (c :: g) :: gs

/-- `sortStr.split(':')`. -/
def splitColon (s : String) : List String :=
  (splitOnChar ':' s.data).map (fun g => String.mk g)

namespace SearchService

/-- `arr = arr || []; if (!arr.includes(x)) arr.push(x)`. -/
def addUnique [DecidableEq α] (l : List α) (x : α) : List α :=
  if x ∈ l then l else l ++ [x]

/-- Free-text accumulation
`query.text = query.text ? query.text + ' ' + token : token`
(an empty accumulated text is falsy and gets replaced). -/
def joinText (o : Option String) (tok : String) : Option String :=
  match o with
  | some s => if s ≠ "" then some (s ++ " " ++ tok) else some tok
  | none => some tok

/-- One iteration of `parseQuery`'s token loop.  `dueOf` abstracts the
private `parseDueDate` helper, whose calendar-local date arithmetic
(`today`, `tomorrow`, month offsets) is outside this embedding; every claim
proved below holds for an arbitrary `dueOf`. -/
def parseStep (store : IndexStore) (dueOf : String → Option Nat)
    (q : SearchQuery) (tok : String) : SearchQuery :=
  if strStarts tok "status:" then
    match statusOfString (strDropn tok 7) with
    | some st => { q with statuses := some (addUnique (q.statuses.getD []) st) }
    | none => q
  else if strStarts tok "priority:" then
    match parseIntJs (strDropn tok 9) with
    | some p =>
      if 1 ≤ p ∧ p ≤ 5 then
        { q with priorities := some (addUnique (q.priorities.getD []) p.toNat) }
      else q
    | none => q
  else if strStarts tok "tag:" then
    match IndexStore.getTagByName store (strDropn tok 4) with
    | some tg => { q with tags := some (addUnique (q.tags.getD []) tg.id) }
    | none => q
  else if strStarts tok "project:" then
    match (IndexStore.getAllProjects store).find?
        (fun p => strLower p.name = strLower (strDropn tok 8)) with
    | some p => { q with projectId := some p.id }
    | none => q
  else if strStarts tok "due:" then
    match dueOf (strDropn tok 4) with
    | some d => { q with dueBefore := some d }
    | none => q
  else if strStarts tok "sort:" then
    match splitColon (strDropn tok 5) with
    | [fs, ds] =>
      (match sortFieldOfString fs, sortDirOfString ds with
       | some f, some d => { q with sort := some ⟨f, d⟩ }
       | _, _ => q)
    | _ => q
  else if strStarts tok "+" then
    match IndexStore.getTagByName store (strDropn tok 1) with
    | some tg => { q with tags := some (addUnique (q.tags.getD []) tg.id) }
    | none => q
  else if strStarts tok "-" then
    { q with text := joinText q.text tok }
  else
    { q with text := joinText q.text tok }

/-- `SearchService.parseQuery(queryString)`. -/
def parseQuery (store : IndexStore) (dueOf : String → Option Nat)
    (queryString : String) : SearchQuery :=
  (tokenizeQuery queryString).foldl (parseStep store dueOf) {}

end SearchService

/-! ### Free-text accumulation of `parseQuery` -/

/-- A token is free text when it matches none of the recognized prefixes
(`status:`, `priority:`, `tag:`, `project:`, `due:`, `sort:`, `+`); a token
with a leading `-` is free text. -/
def isFreeTok (tok : String) : Bool :=
  !strStarts tok "status:" && !strStarts tok "priority:" && !strStarts tok "tag:" &&
    !strStarts tok "project:" && !strStarts tok "due:" && !strStarts tok "sort:" &&
    !strStarts tok "+"

/-- Fold of the free-text accumulation over a token list. -/
def joinAll (o : Option String) (toks : List String) : Option String :=
  toks.foldl SearchService.joinText o

/-- Tokens joined by single spaces. -/
def joinSpaces : List String → String
  | [] => ""
  | [t] => t
  | t :: ts => t ++ " " ++ joinSpaces ts

/-! ### Concrete fixtures used by witnesses and counterexamples -/

/-- Fixture task: todo, priority 3, no due date. -/
def exTask1 : Task :=
  { id := "a1", title := "Alpha", status := Status.todo, priority := 3,
    createdAt := 0, updatedAt := 0 }

/-- Fixture task: done, priority 1, past due date. -/
def exTask2 : Task :=
  { id := "b2", title := "Beta", status := Status.done, priority := 1,
    createdAt := 1, updatedAt := 1, dueAt := some 50 }

/-- Fixture task: doing, priority 5, past due date, project and tag refs. -/
def exTask3 : Task :=
  { id := "c3", title := "Gamma", status := Status.doing, priority := 5,
    projectId := some "p1", tags := ["t1"],
    createdAt := 2, updatedAt := 2, dueAt := some 50 }

/-- Fixture task: todo, priority 2, future due date. -/
def exTask4 : Task :=
  { id := "d4", title := "Delta", status := Status.todo, priority := 2,
    createdAt := 3, updatedAt := 3, dueAt := some 500 }

/-- Fixture mutation sequence adding the four tasks. -/
def exOps : List StoreOp :=
  [StoreOp.addT exTask1 0, StoreOp.addT exTask2 0,
   StoreOp.addT exTask3 0, StoreOp.addT exTask4 0]

/-- Fixture store. -/
def exStore : IndexStore := runOps exOps

/-- Fixture query: (todo OR doing) AND tagged `"t1"`. -/
def exQuery1 : SearchQuery :=
  { statuses := some [Status.todo, Status.doing], tags := some ["t1"] }

/-- Two tasks sharing one id but with different statuses (what a duplicate
`addTask` produces). -/
def dupTask1 : Task :=
  { id := "x", title := "One", status := Status.todo, priority := 3,
    createdAt := 0, updatedAt := 0 }

/-- Same id as `dupTask1`, now done. -/
def dupTask2 : Task :=
  { id := "x", title := "One", status := Status.done, priority := 3,
    createdAt := 0, updatedAt := 0 }

/-- Store produced by adding the same id twice. -/
def dupStore : IndexStore := runOps [StoreOp.addT dupTask1 0, StoreOp.addT dupTask2 0]

/-- Fixture tag. -/
def exTag : Tag := { id := "t1", name := "Foo", createdAt := 0, updatedAt := 0 }

/-- Store holding only `exTag`. -/
def tagStore : IndexStore := IndexStore.addTag {} exTag

/-- A due-date parser stub for witnesses (the claims hold for any parser). -/
def exDueOf : String → Option Nat := fun _ => none

/-- Fixture update input: mark `exTask1` done. -/
def exUpd : UpdateTaskInput := { id := "a1", status := some Status.done }

/-- The hydrated record of `exTask3` at instant 100. -/
def exItem3 : TaskListItem :=
  (hydrateOne exStore 100 "c3").getD
    { task := exTask3, isOverdue := false }

/-! ### Theorems -/

theorem mget_mset [DecidableEq κ] (m : List (κ × ν)) (k k' : κ) (v : ν) :
    mget (mset m k v) k' = if k = k' then some v else mget m k' := by
  induction m with
  | nil => by_cases h : k = k' <;> simp [mset, mget, h]
  | cons e m ih =>
    obtain ⟨a, b⟩ := e
    by_cases hak : a = k
    · subst hak
      by_cases h : a = k' <;> simp [mset, mget, h]
    · by_cases h : a = k'
      · subst h
        have h' : ¬ a = k := hak
        have h'' : ¬ k = a := fun hh => hak hh.symm
        simp [mset, mget, h', h'']
      · simp [mset, mget, hak, h, ih]

theorem mget_mdel [DecidableEq κ] (m : List (κ × ν)) (k k' : κ) :
    mget (mdel m k) k' = if k = k' then none else mget m k' := by
  induction m with
  | nil => by_cases h : k = k' <;> simp [mdel, mget, h]
  | cons e m ih =>
    obtain ⟨a, b⟩ := e
    by_cases hak : a = k
    · subst hak
      have hdrop : mdel ((a, b) :: m) a = mdel m a := by simp [mdel]
      rw [hdrop, ih]
      by_cases h : a = k' <;> simp [mget, h]
    · have hkeep : mdel ((a, b) :: m) k = (a, b) :: mdel m k := by
        simp [mdel, hak]
      rw [hkeep]
      by_cases h : a = k'
      · subst h
        have h'' : ¬ k = a := fun hh => hak hh.symm
        simp [mget, h'']
      · simp [mget, h, ih]

theorem mem_keysOf [DecidableEq κ] {m : List (κ × ν)} {k : κ} :
    k ∈ keysOf m ↔ ∃ v, mget m k = some v := by
  induction m with
  | nil => simp [keysOf, mget]
  | cons e m ih =>
    obtain ⟨a, b⟩ := e
    by_cases h : a = k
    · subst h; simp [keysOf, mget]
    · have h' : ¬ k = a := fun hh => h hh.symm
      have e1 : keysOf ((a, b) :: m) = a :: keysOf m := rfl
      simp only [e1, List.mem_cons, mget, if_neg h]
      rw [ih]
      simp [h']

theorem mget_mem [DecidableEq κ] {m : List (κ × ν)} {k : κ} {v : ν}
    (h : mget m k = some v) : (k, v) ∈ m := by
  induction m with
  | nil => simp [mget] at h
  | cons e m ih =>
    obtain ⟨a, b⟩ := e
    by_cases hak : a = k <;> simp [mget, hak] at h
    · simp [hak, h]
    · simp [ih h]

theorem mem_sAdd {s : List ID} {x y : ID} :
    y ∈ sAdd s x ↔ y ∈ s ∨ y = x := by
  by_cases h : x ∈ s
  · simp only [sAdd, if_pos h]
    constructor
    · exact Or.inl
    · rintro (hy | rfl)
      · exact hy
      · exact h
  · simp [sAdd, h]

theorem mem_sDel {s : List ID} {x y : ID} :
    y ∈ sDel s x ↔ y ∈ s ∧ y ≠ x := by
  simp [sDel]

theorem bucketMem_iff [DecidableEq κ] {m : List (κ × List ID)} {key : κ} {id : ID} :
    bucketMem m key id = true ↔ ∃ b, mget m key = some b ∧ id ∈ b := by
  unfold bucketMem
  cases h : mget m key <;> simp [h]

theorem mget_addToBucket [DecidableEq κ] (m : List (κ × List ID)) (k k' : κ) (x : ID) :
    mget (addToBucket m k x) k' =
      if k = k' then some (sAdd ((mget m k).getD []) x) else mget m k' := by
  unfold addToBucket
  rw [mget_mset]

theorem bucketMem_addToBucket [DecidableEq κ] (m : List (κ × List ID)) (k k' : κ)
    (x y : ID) :
    bucketMem (addToBucket m k x) k' y = true ↔
      (bucketMem m k' y = true ∨ (k' = k ∧ y = x)) := by
  unfold bucketMem
  rw [mget_addToBucket]
  by_cases hk : k = k'
  · subst hk
    simp only [if_pos rfl]
    cases h : mget m k with
    | none => simp [mem_sAdd]
    | some b => simp [mem_sAdd]
  · have hk' : ¬ k' = k := fun hh => hk hh.symm
    simp [if_neg hk, hk']

theorem mget_removeFromBucket [DecidableEq κ] (m : List (κ × List ID)) (k k' : κ)
    (x : ID) :
    mget (removeFromBucket m k x) k' =
      if k = k' then
        (match mget m k with
         | none => none
         | some b => if sDel b x = [] then none else some (sDel b x))
      else mget m k' := by
  unfold removeFromBucket
  cases h : mget m k with
  | none =>
    by_cases hk : k = k'
    · subst hk; simp [h]
    · simp [h, hk]
  | some b =>
    by_cases hemp : sDel b x = []
    · simp [h, hemp, mget_mdel]
    · simp [h, hemp, mget_mset]

theorem bucketMem_removeFromBucket [DecidableEq κ] (m : List (κ × List ID)) (k k' : κ)
    (x y : ID) :
    bucketMem (removeFromBucket m k x) k' y = true ↔
      (bucketMem m k' y = true ∧ ¬(k' = k ∧ y = x)) := by
  unfold bucketMem
  rw [mget_removeFromBucket]
  by_cases hk : k = k'
  · subst hk
    rw [if_pos rfl]
    cases h : mget m k with
    | none => simp
    | some b =>
      dsimp only
      by_cases hemp : sDel b x = []
      · rw [if_pos hemp]
        constructor
        · intro hf; simp at hf
        · rintro ⟨hy, hne⟩
          exfalso
          have hy' : y ∈ b := by simpa using hy
          have hyx : y = x := by
            by_contra hyx
            have hmem : y ∈ sDel b x := mem_sDel.2 ⟨hy', hyx⟩
            rw [hemp] at hmem
            simp at hmem
          exact hne (by simp [hyx])
      · rw [if_neg hemp]
        simp only [decide_eq_true_eq, mem_sDel]
        constructor
        · rintro ⟨h1, h2⟩; exact ⟨h1, fun hc => h2 hc.2⟩
        · rintro ⟨h1, h2⟩; exact ⟨h1, fun hyx => h2 (by simp [hyx])⟩
  · have hk' : ¬ k' = k := fun hh => hk hh.symm
    rw [if_neg hk]
    constructor
    · intro hb; exact ⟨hb, fun hc => hk' hc.1⟩
    · exact fun hc => hc.1

theorem bucketMem_addTagsToBuckets (m : List (ID × List ID)) (tags : List ID)
    (x k : ID) (y : ID) :
    bucketMem (addTagsToBuckets m tags x) k y = true ↔
      (bucketMem m k y = true ∨ (k ∈ tags ∧ y = x)) := by
  induction tags generalizing m with
  | nil => simp [addTagsToBuckets]
  | cons tg tags ih =>
    show bucketMem (addTagsToBuckets (addToBucket m tg x) tags x) k y = true ↔ _
    rw [ih, bucketMem_addToBucket]
    constructor
    · rintro ((hb | ⟨rfl, rfl⟩) | ⟨hk, rfl⟩)
      · exact Or.inl hb
      · exact Or.inr ⟨List.mem_cons_self _ _, rfl⟩
      · exact Or.inr ⟨List.mem_cons_of_mem _ hk, rfl⟩
    · rintro (hb | ⟨hk, rfl⟩)
      · exact Or.inl (Or.inl hb)
      · rcases List.mem_cons.1 hk with rfl | hk'
        · exact Or.inl (Or.inr ⟨rfl, rfl⟩)
        · exact Or.inr ⟨hk', rfl⟩

theorem bucketMem_removeTagsFromBuckets (m : List (ID × List ID)) (tags : List ID)
    (x k : ID) (y : ID) :
    bucketMem (removeTagsFromBuckets m tags x) k y = true ↔
      (bucketMem m k y = true ∧ ¬(k ∈ tags ∧ y = x)) := by
  induction tags generalizing m with
  | nil => simp [removeTagsFromBuckets]
  | cons tg tags ih =>
    show bucketMem (removeTagsFromBuckets (removeFromBucket m tg x) tags x) k y = true ↔ _
    rw [ih, bucketMem_removeFromBucket]
    constructor
    · rintro ⟨⟨hb, hne1⟩, hne2⟩
      refine ⟨hb, ?_⟩
      rintro ⟨hk, rfl⟩
      rcases List.mem_cons.1 hk with rfl | hk'
      · exact hne1 ⟨rfl, rfl⟩
      · exact hne2 ⟨hk', rfl⟩
    · rintro ⟨hb, hne⟩
      refine ⟨⟨hb, ?_⟩, ?_⟩
      · rintro ⟨rfl, rfl⟩
        exact hne ⟨List.mem_cons_self _ _, rfl⟩
      · rintro ⟨hk', rfl⟩
        exact hne ⟨List.mem_cons_of_mem _ hk', rfl⟩

theorem consistent_empty : Consistent {} := by
  refine ⟨?_, ?_, ?_, ?_, ?_, ?_⟩ <;> intros <;> simp_all [mget, bucketMem]

theorem bucketMem_upd_proj (s : IndexStore) (t : Task) (now : Nat) (pid y : ID) :
    bucketMem (IndexStore.updateTaskIndexes s t now).tasksByProject pid y = true ↔
      (bucketMem s.tasksByProject pid y = true ∨
        (t.projectId = some pid ∧ pid ≠ "" ∧ y = t.id)) := by
  show bucketMem (match t.projectId with
      | some p => if p ≠ "" then addToBucket s.tasksByProject p t.id else s.tasksByProject
      | none => s.tasksByProject) pid y = true ↔ _
  cases hp : t.projectId with
  | none => simp [hp]
  | some p =>
    dsimp only
    by_cases hpe : p = ""
    · subst hpe
      rw [if_neg (by simp)]
      constructor
      · exact Or.inl
      · rintro (hb | ⟨hsome, hne, rfl⟩)
        · exact hb
        · injection hsome with h
          exact absurd h.symm hne
    · rw [if_pos hpe, bucketMem_addToBucket]
      constructor
      · rintro (hb | ⟨rfl, rfl⟩)
        · exact Or.inl hb
        · exact Or.inr ⟨rfl, hpe, rfl⟩
      · rintro (hb | ⟨hsome, hne, rfl⟩)
        · exact Or.inl hb
        · injection hsome with h
          exact Or.inr ⟨h.symm, rfl⟩

theorem bucketMem_rem_proj (s : IndexStore) (t : Task) (pid y : ID) :
    bucketMem (IndexStore.removeTaskFromIndexes s t).tasksByProject pid y = true ↔
      (bucketMem s.tasksByProject pid y = true ∧
        ¬(t.projectId = some pid ∧ pid ≠ "" ∧ y = t.id)) := by
  show bucketMem (match t.projectId with
      | some p => if p ≠ "" then removeFromBucket s.tasksByProject p t.id
                  else s.tasksByProject
      | none => s.tasksByProject) pid y = true ↔ _
  cases hp : t.projectId with
  | none =>
    simp only [hp]
    constructor
    · intro hb
      exact ⟨hb, by rintro ⟨hsome, -, -⟩; cases hsome⟩
    · exact fun h => h.1
  | some p =>
    dsimp only
    by_cases hpe : p = ""
    · subst hpe
      rw [if_neg (by simp)]
      constructor
      · intro hb
        refine ⟨hb, ?_⟩
        rintro ⟨hsome, hne, -⟩
        injection hsome with h
        exact hne h.symm
      · exact fun h => h.1
    · rw [if_pos hpe, bucketMem_removeFromBucket]
      constructor
      · rintro ⟨hb, hne⟩
        refine ⟨hb, ?_⟩
        rintro ⟨hsome, -, rfl⟩
        injection hsome with h
        exact hne ⟨h.symm, rfl⟩
      · rintro ⟨hb, hne⟩
        refine ⟨hb, ?_⟩
        rintro ⟨rfl, rfl⟩
        exact hne ⟨rfl, hpe, rfl⟩

theorem bucketMem_eq_false_of_none_status {s : IndexStore} (hc : Consistent s)
    {y : ID} (hfresh : mget s.tasks y = none) (st : Status) :
    bucketMem s.tasksByStatus st y = false := by
  rw [Bool.eq_false_iff]
  intro hb
  obtain ⟨u, hu, -⟩ := (hc.statusOk st y).1 hb
  rw [hfresh] at hu
  cases hu

theorem bucketMem_eq_false_of_none_prio {s : IndexStore} (hc : Consistent s)
    {y : ID} (hfresh : mget s.tasks y = none) (p : Priority) :
    bucketMem s.tasksByPriority p y = false := by
  rw [Bool.eq_false_iff]
  intro hb
  obtain ⟨u, hu, -⟩ := (hc.prioOk p y).1 hb
  rw [hfresh] at hu
  cases hu

theorem bucketMem_eq_false_of_none_tag {s : IndexStore} (hc : Consistent s)
    {y : ID} (hfresh : mget s.tasks y = none) (tg : ID) :
    bucketMem s.tasksByTag tg y = false := by
  rw [Bool.eq_false_iff]
  intro hb
  obtain ⟨u, hu, -⟩ := (hc.tagOk tg y).1 hb
  rw [hfresh] at hu
  cases hu

theorem bucketMem_eq_false_of_none_proj {s : IndexStore} (hc : Consistent s)
    {y : ID} (hfresh : mget s.tasks y = none) (pid : ID) :
    bucketMem s.tasksByProject pid y = false := by
  rw [Bool.eq_false_iff]
  intro hb
  obtain ⟨u, hu, -⟩ := (hc.projOk pid y).1 hb
  rw [hfresh] at hu
  cases hu

/-- Core step lemma: inserting task `t` into a state `s1` whose buckets are
consistent for every id other than `t.id` and contain `t.id` nowhere yields a
consistent state. -/
theorem consistent_after_insert (s1 : IndexStore) (t : Task) (now : Nat)
    (hkey : ∀ id u, mget s1.tasks id = some u → u.id = id)
    (hstat : ∀ st y, y ≠ t.id → (bucketMem s1.tasksByStatus st y = true ↔
        ∃ u, mget s1.tasks y = some u ∧ u.status = st))
    (hstatT : ∀ st, bucketMem s1.tasksByStatus st t.id = false)
    (hprio : ∀ p y, y ≠ t.id → (bucketMem s1.tasksByPriority p y = true ↔
        ∃ u, mget s1.tasks y = some u ∧ u.priority = p))
    (hprioT : ∀ p, bucketMem s1.tasksByPriority p t.id = false)
    (htag : ∀ tg y, y ≠ t.id → (bucketMem s1.tasksByTag tg y = true ↔
        ∃ u, mget s1.tasks y = some u ∧ tg ∈ u.tags))
    (htagT : ∀ tg, bucketMem s1.tasksByTag tg t.id = false)
    (hproj : ∀ pid y, y ≠ t.id → (bucketMem s1.tasksByProject pid y = true ↔
        ∃ u, mget s1.tasks y = some u ∧ u.projectId = some pid ∧ pid ≠ ""))
    (hprojT : ∀ pid, bucketMem s1.tasksByProject pid t.id = false)
    (hover : ∀ y, y ∈ s1.overdueTasks → ∃ u, mget s1.tasks y = some u) :
    Consistent
      (IndexStore.updateTaskIndexes { s1 with tasks := mset s1.tasks t.id t } t now) := by
  have htasks :
      (IndexStore.updateTaskIndexes { s1 with tasks := mset s1.tasks t.id t } t now).tasks
        = mset s1.tasks t.id t := rfl
  refine ⟨?_, ?_, ?_, ?_, ?_, ?_⟩
  · intro id u hu
    rw [htasks, mget_mset] at hu
    by_cases h : t.id = id
    · rw [if_pos h] at hu
      cases hu
      exact h
    · rw [if_neg h] at hu
      exact hkey id u hu
  · intro st y
    have hbs :
        (IndexStore.updateTaskIndexes { s1 with tasks := mset s1.tasks t.id t } t now).tasksByStatus
          = addToBucket s1.tasksByStatus t.status t.id := rfl
    rw [htasks, hbs, bucketMem_addToBucket, mget_mset]
    by_cases hy : y = t.id
    · subst hy
      rw [if_pos rfl]
      have hfalse := hstatT st
      constructor
      · rintro (hb | ⟨rfl, -⟩)
        · rw [hfalse] at hb; cases hb
        · exact ⟨t, rfl, rfl⟩
      · rintro ⟨u, hu, hust⟩
        cases hu
        exact Or.inr ⟨hust.symm, rfl⟩
    · rw [if_neg (fun hh => hy hh.symm)]
      rw [hstat st y hy]
      constructor
      · rintro (⟨u, hu, hust⟩ | ⟨-, rfl⟩)
        · exact ⟨u, hu, hust⟩
        · exact absurd rfl hy
      · rintro ⟨u, hu, hust⟩
        exact Or.inl ⟨u, hu, hust⟩
  · intro p y
    have hbp :
        (IndexStore.updateTaskIndexes { s1 with tasks := mset s1.tasks t.id t } t now).tasksByPriority
          = addToBucket s1.tasksByPriority t.priority t.id := rfl
    rw [htasks, hbp, bucketMem_addToBucket, mget_mset]
    by_cases hy : y = t.id
    · subst hy
      rw [if_pos rfl]
      have hfalse := hprioT p
      constructor
      · rintro (hb | ⟨rfl, -⟩)
        · rw [hfalse] at hb; cases hb
        · exact ⟨t, rfl, rfl⟩
      · rintro ⟨u, hu, hup⟩
        cases hu
        exact Or.inr ⟨hup.symm, rfl⟩
    · rw [if_neg (fun hh => hy hh.symm)]
      rw [hprio p y hy]
      constructor
      · rintro (⟨u, hu, hup⟩ | ⟨-, rfl⟩)
        · exact ⟨u, hu, hup⟩
        · exact absurd rfl hy
      · rintro ⟨u, hu, hup⟩
        exact Or.inl ⟨u, hu, hup⟩
  · intro tg y
    have hbt :
        (IndexStore.updateTaskIndexes { s1 with tasks := mset s1.tasks t.id t } t now).tasksByTag
          = addTagsToBuckets s1.tasksByTag t.tags t.id := rfl
    rw [htasks, hbt, bucketMem_addTagsToBuckets, mget_mset]
    by_cases hy : y = t.id
    · subst hy
      rw [if_pos rfl]
      have hfalse := htagT tg
      constructor
      · rintro (hb | ⟨htg, -⟩)
        · rw [hfalse] at hb; cases hb
        · exact ⟨t, rfl, htg⟩
      · rintro ⟨u, hu, hutg⟩
        cases hu
        exact Or.inr ⟨hutg, rfl⟩
    · rw [if_neg (fun hh => hy hh.symm)]
      rw [htag tg y hy]
      constructor
      · rintro (⟨u, hu, hutg⟩ | ⟨-, rfl⟩)
        · exact ⟨u, hu, hutg⟩
        · exact absurd rfl hy
      · rintro ⟨u, hu, hutg⟩
        exact Or.inl ⟨u, hu, hutg⟩
  · intro pid y
    rw [bucketMem_upd_proj, htasks, mget_mset]
    by_cases hy : y = t.id
    · subst hy
      rw [if_pos rfl]
      have hfalse := hprojT pid
      constructor
      · rintro (hb | ⟨hsome, hne, -⟩)
        · rw [hfalse] at hb; cases hb
        · exact ⟨t, rfl, hsome, hne⟩
      · rintro ⟨u, hu, hsome, hne⟩
        cases hu
        exact Or.inr ⟨hsome, hne, rfl⟩
    · rw [if_neg (fun hh => hy hh.symm)]
      rw [hproj pid y hy]
      constructor
      · rintro (⟨u, hu, hrest⟩ | ⟨-, -, rfl⟩)
        · exact ⟨u, hu, hrest⟩
        · exact absurd rfl hy
      · rintro ⟨u, hu, hrest⟩
        exact Or.inl ⟨u, hu, hrest⟩
  · intro y hy
    have hbo :
        (IndexStore.updateTaskIndexes { s1 with tasks := mset s1.tasks t.id t } t now).overdueTasks
          = (if isOverdueAt t now then sAdd s1.overdueTasks t.id
             else sDel s1.overdueTasks t.id) := rfl
    rw [hbo] at hy
    rw [htasks]
    by_cases hyt : y = t.id
    · subst hyt
      rw [mget_mset, if_pos rfl]
      exact ⟨t, rfl⟩
    · have hy1 : y ∈ s1.overdueTasks := by
        by_cases hov : isOverdueAt t now
        · rw [if_pos hov] at hy
          rcases mem_sAdd.1 hy with h1 | h1
          · exact h1
          · exact absurd h1 hyt
        · rw [if_neg hov] at hy
          exact (mem_sDel.1 hy).1
      obtain ⟨u, hu⟩ := hover y hy1
      rw [mget_mset, if_neg (fun hh => hyt hh.symm)]
      exact ⟨u, hu⟩

/-- Adding a task with a fresh id preserves index consistency. -/
theorem consistent_addTask {s : IndexStore} (t : Task) (now : Nat)
    (hc : Consistent s) (hfresh : mget s.tasks t.id = none) :
    Consistent (IndexStore.addTask s t now) := by
  show Consistent
    (IndexStore.updateTaskIndexes { s with tasks := mset s.tasks t.id t } t now)
  exact consistent_after_insert s t now hc.keyOk
    (fun st y _ => hc.statusOk st y)
    (fun st => bucketMem_eq_false_of_none_status hc hfresh st)
    (fun p y _ => hc.prioOk p y)
    (fun p => bucketMem_eq_false_of_none_prio hc hfresh p)
    (fun tg y _ => hc.tagOk tg y)
    (fun tg => bucketMem_eq_false_of_none_tag hc hfresh tg)
    (fun pid y _ => hc.projOk pid y)
    (fun pid => bucketMem_eq_false_of_none_proj hc hfresh pid)
    hc.overdueOk

/-- Replacing a task (remove old contributions, insert new ones) preserves
index consistency, with no freshness requirement. -/
theorem consistent_updateTask {s : IndexStore} (t : Task) (now : Nat)
    (hc : Consistent s) : Consistent (IndexStore.updateTask s t now) := by
  cases hold : mget s.tasks t.id with
  | none =>
    have hrw : IndexStore.updateTask s t now =
        IndexStore.updateTaskIndexes { s with tasks := mset s.tasks t.id t } t now := by
      unfold IndexStore.updateTask
      rw [hold]
    rw [hrw]
    exact consistent_after_insert s t now hc.keyOk
      (fun st y _ => hc.statusOk st y)
      (fun st => bucketMem_eq_false_of_none_status hc hold st)
      (fun p y _ => hc.prioOk p y)
      (fun p => bucketMem_eq_false_of_none_prio hc hold p)
      (fun tg y _ => hc.tagOk tg y)
      (fun tg => bucketMem_eq_false_of_none_tag hc hold tg)
      (fun pid y _ => hc.projOk pid y)
      (fun pid => bucketMem_eq_false_of_none_proj hc hold pid)
      hc.overdueOk
  | some old =>
    have hoid : old.id = t.id := hc.keyOk _ _ hold
    have hrw : IndexStore.updateTask s t now =
        IndexStore.updateTaskIndexes
          { IndexStore.removeTaskFromIndexes s old with
            tasks := mset (IndexStore.removeTaskFromIndexes s old).tasks t.id t } t now := by
      unfold IndexStore.updateTask
      rw [hold]
    rw [hrw]
    have hbs : (IndexStore.removeTaskFromIndexes s old).tasksByStatus =
        removeFromBucket s.tasksByStatus old.status old.id := rfl
    have hbp : (IndexStore.removeTaskFromIndexes s old).tasksByPriority =
        removeFromBucket s.tasksByPriority old.priority old.id := rfl
    have hbt : (IndexStore.removeTaskFromIndexes s old).tasksByTag =
        removeTagsFromBuckets s.tasksByTag old.tags old.id := rfl
    have hbo : (IndexStore.removeTaskFromIndexes s old).overdueTasks =
        sDel s.overdueTasks old.id := rfl
    refine consistent_after_insert _ t now hc.keyOk ?_ ?_ ?_ ?_ ?_ ?_ ?_ ?_ ?_
    · intro st y hy
      rw [hbs, bucketMem_removeFromBucket]
      have hyold : y ≠ old.id := by rw [hoid]; exact hy
      rw [hc.statusOk st y]
      constructor
      · exact fun h => h.1
      · exact fun h => ⟨h, fun hcon => hyold hcon.2⟩
    · intro st
      rw [Bool.eq_false_iff]
      intro hb
      rw [hbs, bucketMem_removeFromBucket] at hb
      obtain ⟨hb1, hb2⟩ := hb
      obtain ⟨u, hu, hust⟩ := (hc.statusOk st t.id).1 hb1
      rw [hold] at hu
      cases hu
      exact hb2 ⟨hust.symm, hoid.symm⟩
    · intro p y hy
      rw [hbp, bucketMem_removeFromBucket]
      have hyold : y ≠ old.id := by rw [hoid]; exact hy
      rw [hc.prioOk p y]
      constructor
      · exact fun h => h.1
      · exact fun h => ⟨h, fun hcon => hyold hcon.2⟩
    · intro p
      rw [Bool.eq_false_iff]
      intro hb
      rw [hbp, bucketMem_removeFromBucket] at hb
      obtain ⟨hb1, hb2⟩ := hb
      obtain ⟨u, hu, hup⟩ := (hc.prioOk p t.id).1 hb1
      rw [hold] at hu
      cases hu
      exact hb2 ⟨hup.symm, hoid.symm⟩
    · intro tg y hy
      rw [hbt, bucketMem_removeTagsFromBuckets]
      have hyold : y ≠ old.id := by rw [hoid]; exact hy
      rw [hc.tagOk tg y]
      constructor
      · exact fun h => h.1
      · exact fun h => ⟨h, fun hcon => hyold hcon.2⟩
    · intro tg
      rw [Bool.eq_false_iff]
      intro hb
      rw [hbt, bucketMem_removeTagsFromBuckets] at hb
      obtain ⟨hb1, hb2⟩ := hb
      obtain ⟨u, hu, hutg⟩ := (hc.tagOk tg t.id).1 hb1
      rw [hold] at hu
      cases hu
      exact hb2 ⟨hutg, hoid.symm⟩
    · intro pid y hy
      rw [bucketMem_rem_proj]
      have hyold : y ≠ old.id := by rw [hoid]; exact hy
      rw [hc.projOk pid y]
      constructor
      · exact fun h => h.1
      · exact fun h => ⟨h, fun hcon => hyold hcon.2.2⟩
    · intro pid
      rw [Bool.eq_false_iff]
      intro hb
      rw [bucketMem_rem_proj] at hb
      obtain ⟨hb1, hb2⟩ := hb
      obtain ⟨u, hu, hupid, hne⟩ := (hc.projOk pid t.id).1 hb1
      rw [hold] at hu
      cases hu
      exact hb2 ⟨hupid, hne, hoid.symm⟩
    · intro y hy
      rw [hbo] at hy
      exact hc.overdueOk y (mem_sDel.1 hy).1

/-- Removing a task preserves index consistency. -/
theorem consistent_removeTask {s : IndexStore} (id : ID) (hc : Consistent s) :
    Consistent (IndexStore.removeTask s id) := by
  cases hold : mget s.tasks id with
  | none =>
    have hrw : IndexStore.removeTask s id = s := by
      unfold IndexStore.removeTask
      rw [hold]
    rw [hrw]
    exact hc
  | some told =>
    have hoid : told.id = id := hc.keyOk _ _ hold
    have hrw : IndexStore.removeTask s id =
        { tasks := mdel s.tasks id,
          projects := s.projects,
          tags := s.tags,
          tagByName := s.tagByName,
          tasksByProject := (IndexStore.removeTaskFromIndexes s told).tasksByProject,
          tasksByTag := removeTagsFromBuckets s.tasksByTag told.tags told.id,
          tasksByStatus := removeFromBucket s.tasksByStatus told.status told.id,
          tasksByPriority := removeFromBucket s.tasksByPriority told.priority told.id,
          overdueTasks := sDel s.overdueTasks told.id } := by
      unfold IndexStore.removeTask
      rw [hold]
      rfl
    rw [hrw]
    clear hrw
    refine ⟨?_, ?_, ?_, ?_, ?_, ?_⟩
    · dsimp only
      intro y u hu
      rw [mget_mdel] at hu
      by_cases h : id = y
      · rw [if_pos h] at hu; cases hu
      · rw [if_neg h] at hu
        exact hc.keyOk y u hu
    · dsimp only
      intro st y
      show bucketMem (removeFromBucket s.tasksByStatus told.status told.id) st y = true ↔
        ∃ t, mget (mdel s.tasks id) y = some t ∧ t.status = st
      rw [bucketMem_removeFromBucket, mget_mdel, hc.statusOk st y]
      by_cases hy : id = y
      · subst hy
        rw [if_pos rfl]
        constructor
        · rintro ⟨⟨u, hu, hust⟩, hne⟩
          rw [hold] at hu
          cases hu
          exact absurd ⟨hust.symm, hoid.symm⟩ hne
        · rintro ⟨u, hu, -⟩
          cases hu
      · rw [if_neg hy]
        have hyold : y ≠ told.id := fun hh => hy (by rw [hh, hoid])
        constructor
        · exact fun h => h.1
        · exact fun h => ⟨h, fun hcon => hyold hcon.2⟩
    · dsimp only
      intro p y
      show bucketMem (removeFromBucket s.tasksByPriority told.priority told.id) p y = true ↔
        ∃ t, mget (mdel s.tasks id) y = some t ∧ t.priority = p
      rw [bucketMem_removeFromBucket, mget_mdel, hc.prioOk p y]
      by_cases hy : id = y
      · subst hy
        rw [if_pos rfl]
        constructor
        · rintro ⟨⟨u, hu, hup⟩, hne⟩
          rw [hold] at hu
          cases hu
          exact absurd ⟨hup.symm, hoid.symm⟩ hne
        · rintro ⟨u, hu, -⟩
          cases hu
      · rw [if_neg hy]
        have hyold : y ≠ told.id := fun hh => hy (by rw [hh, hoid])
        constructor
        · exact fun h => h.1
        · exact fun h => ⟨h, fun hcon => hyold hcon.2⟩
    · dsimp only
      intro tg y
      show bucketMem (removeTagsFromBuckets s.tasksByTag told.tags told.id) tg y = true ↔
        ∃ t, mget (mdel s.tasks id) y = some t ∧ tg ∈ t.tags
      rw [bucketMem_removeTagsFromBuckets, mget_mdel, hc.tagOk tg y]
      by_cases hy : id = y
      · subst hy
        rw [if_pos rfl]
        constructor
        · rintro ⟨⟨u, hu, hutg⟩, hne⟩
          rw [hold] at hu
          cases hu
          exact absurd ⟨hutg, hoid.symm⟩ hne
        · rintro ⟨u, hu, -⟩
          cases hu
      · rw [if_neg hy]
        have hyold : y ≠ told.id := fun hh => hy (by rw [hh, hoid])
        constructor
        · exact fun h => h.1
        · exact fun h => ⟨h, fun hcon => hyold hcon.2⟩
    · dsimp only
      intro pid y
      show bucketMem (IndexStore.removeTaskFromIndexes s told).tasksByProject pid y = true ↔
        ∃ t, mget (mdel s.tasks id) y = some t ∧ t.projectId = some pid ∧ pid ≠ ""
      rw [bucketMem_rem_proj, mget_mdel, hc.projOk pid y]
      by_cases hy : id = y
      · subst hy
        rw [if_pos rfl]
        constructor
        · rintro ⟨⟨u, hu, hupid, hne⟩, hne2⟩
          rw [hold] at hu
          cases hu
          exact absurd ⟨hupid, hne, hoid.symm⟩ hne2
        · rintro ⟨u, hu, -⟩
          cases hu
      · rw [if_neg hy]
        have hyold : y ≠ told.id := fun hh => hy (by rw [hh, hoid])
        constructor
        · exact fun h => h.1
        · exact fun h => ⟨h, fun hcon => hyold hcon.2.2⟩
    · dsimp only
      intro y hy
      have hy' : y ∈ sDel s.overdueTasks told.id := hy
      show ∃ t, mget (mdel s.tasks id) y = some t
      obtain ⟨hys, hyne⟩ := mem_sDel.1 hy'
      obtain ⟨u, hu⟩ := hc.overdueOk y hys
      have hyid : ¬ id = y := by
        intro hh
        subst hh
        exact hyne hoid.symm
      rw [mget_mdel, if_neg hyid]
      exact ⟨u, hu⟩

theorem consistent_foldl :
    ∀ (ops : List StoreOp) (s : IndexStore), Consistent s → opsOk s ops = true →
      Consistent (ops.foldl applyOp s) := by
  intro ops
  induction ops with
  | nil => exact fun s hc _ => hc
  | cons op rest ih =>
    intro s hc hok
    have hok' : (opHd s op && opsOk (applyOp s op) rest) = true := hok
    rw [Bool.and_eq_true] at hok'
    obtain ⟨hhd, htl⟩ := hok'
    have hstep : Consistent (applyOp s op) := by
      cases op with
      | addT t now =>
        have hfresh : mget s.tasks t.id = none := by
          have hh : (mget s.tasks t.id).isNone = true := hhd
          exact Option.isNone_iff_eq_none.1 hh
        exact consistent_addTask t now hc hfresh
      | updT t now => exact consistent_updateTask t now hc
      | remT id => exact consistent_removeTask id hc
    exact ih (applyOp s op) hstep htl

/-- Any well-formed mutation sequence from the empty store yields a
consistent store. -/
theorem consistent_runOps (ops : List StoreOp) (hok : opsOk {} ops = true) :
    Consistent (runOps ops) :=
  consistent_foldl ops {} consistent_empty hok

/-! ### Membership characterization of the candidate set -/

theorem mem_foldl_sAdd (l acc : List ID) (y : ID) :
    y ∈ l.foldl sAdd acc ↔ y ∈ acc ∨ y ∈ l := by
  induction l generalizing acc with
  | nil => simp
  | cons x xs ih =>
    rw [List.foldl_cons, ih, mem_sAdd]
    simp [List.mem_cons, or_assoc]

theorem mem_unionBuckets [DecidableEq κ] (m : List (κ × List ID)) (ks : List κ)
    (y : ID) :
    y ∈ unionBuckets m ks ↔ ∃ k ∈ ks, bucketMem m k y = true := by
  suffices h : ∀ acc,
      (y ∈ ks.foldl (fun acc key => ((mget m key).getD []).foldl sAdd acc) acc ↔
        y ∈ acc ∨ ∃ k ∈ ks, bucketMem m k y = true) by
    have h0 := h []
    simp only [List.not_mem_nil, false_or] at h0
    exact h0
  intro acc
  induction ks generalizing acc with
  | nil => simp
  | cons k ks ih =>
    rw [List.foldl_cons, ih, mem_foldl_sAdd]
    have hbk : (y ∈ (mget m k).getD []) ↔ bucketMem m k y = true := by
      unfold bucketMem
      cases h : mget m k <;> simp
    rw [hbk]
    constructor
    · rintro ((h | hb) | ⟨k', hk', hb'⟩)
      · exact Or.inl h
      · exact Or.inr ⟨k, List.mem_cons_self _ _, hb⟩
      · exact Or.inr ⟨k', List.mem_cons_of_mem _ hk', hb'⟩
    · rintro (h | ⟨k', hk', hb'⟩)
      · exact Or.inl (Or.inl h)
      · rcases List.mem_cons.1 hk' with rfl | hk''
        · exact Or.inl (Or.inr hb')
        · exact Or.inr ⟨k', hk'', hb'⟩

theorem mem_filter_task {s : IndexStore} {l : List ID} {p : ID → Bool}
    {A B : Task → Prop}
    (hl : ∀ id, id ∈ l ↔ ∃ t, mget s.tasks id = some t ∧ A t)
    (hp : ∀ id t, mget s.tasks id = some t → (p id = true ↔ B t)) (id : ID) :
    id ∈ l.filter p ↔ ∃ t, mget s.tasks id = some t ∧ A t ∧ B t := by
  rw [List.mem_filter, hl]
  constructor
  · rintro ⟨⟨t, ht, hA⟩, hpid⟩
    exact ⟨t, ht, hA, (hp id t ht).1 hpid⟩
  · rintro ⟨t, ht, hA, hB⟩
    exact ⟨⟨t, ht, hA⟩, (hp id t ht).2 hB⟩

theorem mem_statusFiltered {s : IndexStore} {q : SearchQuery} (hc : Consistent s)
    (id : ID) :
    id ∈ statusFiltered s q ↔ ∃ t, mget s.tasks id = some t ∧ statusCond q t := by
  unfold statusFiltered statusCond
  cases hq : q.statuses with
  | none =>
    dsimp only
    simp [mem_keysOf]
  | some sts =>
    dsimp only
    by_cases hemp : sts.isEmpty
    · rw [if_pos hemp]
      have hnil : sts = [] := List.isEmpty_iff.1 hemp
      subst hnil
      rw [mem_keysOf]
      constructor
      · rintro ⟨t, ht⟩
        exact ⟨t, ht, fun hne => absurd rfl hne⟩
      · rintro ⟨t, ht, -⟩
        exact ⟨t, ht⟩
    · rw [if_neg hemp]
      have hne : sts ≠ [] := fun h => by rw [h] at hemp; simp at hemp
      rw [mem_unionBuckets]
      constructor
      · rintro ⟨st, hst, hb⟩
        obtain ⟨t, ht, hts⟩ := (hc.statusOk st id).1 hb
        exact ⟨t, ht, fun _ => hts ▸ hst⟩
      · rintro ⟨t, ht, hcond⟩
        exact ⟨t.status, hcond hne, (hc.statusOk t.status id).2 ⟨t, ht, rfl⟩⟩

theorem mem_priorityFiltered {s : IndexStore} {q : SearchQuery} (hc : Consistent s)
    (id : ID) :
    id ∈ priorityFiltered s q ↔
      ∃ t, mget s.tasks id = some t ∧ statusCond q t ∧ prioCond q t := by
  unfold priorityFiltered prioCond
  cases hq : q.priorities with
  | none =>
    dsimp only
    rw [mem_statusFiltered hc id]
    simp
  | some ps =>
    dsimp only
    by_cases hemp : ps.isEmpty
    · rw [if_pos hemp]
      have hnil : ps = [] := List.isEmpty_iff.1 hemp
      subst hnil
      rw [mem_statusFiltered hc id]
      apply exists_congr
      intro t
      constructor
      · rintro ⟨h1, h2⟩
        exact ⟨h1, h2, fun hne => absurd rfl hne⟩
      · rintro ⟨h1, h2, -⟩
        exact ⟨h1, h2⟩
    · rw [if_neg hemp]
      have hne : ps ≠ [] := fun h => by rw [h] at hemp; simp at hemp
      have hp : ∀ i t, mget s.tasks i = some t →
          (decide (i ∈ unionBuckets s.tasksByPriority ps) = true ↔ t.priority ∈ ps) := by
        intro i t ht
        rw [decide_eq_true_eq, mem_unionBuckets]
        constructor
        · rintro ⟨p', hp', hb⟩
          obtain ⟨u, hu, hup⟩ := (hc.prioOk p' i).1 hb
          rw [ht] at hu
          cases hu
          exact hup ▸ hp'
        · intro hmem
          exact ⟨t.priority, hmem, (hc.prioOk t.priority i).2 ⟨t, ht, rfl⟩⟩
      rw [mem_filter_task (fun i => mem_statusFiltered hc i) hp id]
      apply exists_congr
      intro t
      constructor
      · rintro ⟨h1, h2, h3⟩
        exact ⟨h1, h2, fun _ => h3⟩
      · rintro ⟨h1, h2, h3⟩
        exact ⟨h1, h2, h3 hne⟩

theorem mem_tagFiltered {s : IndexStore} {q : SearchQuery} (hc : Consistent s)
    (id : ID) :
    id ∈ tagFiltered s q ↔
      ∃ t, mget s.tasks id = some t ∧ statusCond q t ∧ prioCond q t ∧ tagCond q t := by
  unfold tagFiltered tagCond
  cases hq : q.tags with
  | none =>
    dsimp only
    rw [mem_priorityFiltered hc id]
    simp [and_assoc]
  | some tgs =>
    dsimp only
    by_cases hemp : tgs.isEmpty
    · rw [if_pos hemp]
      have hnil : tgs = [] := List.isEmpty_iff.1 hemp
      subst hnil
      rw [mem_priorityFiltered hc id]
      apply exists_congr
      intro t
      constructor
      · rintro ⟨h1, h2, h3⟩
        exact ⟨h1, h2, h3, fun hne => absurd rfl hne⟩
      · rintro ⟨h1, h2, h3, -⟩
        exact ⟨h1, h2, h3⟩
    · rw [if_neg hemp]
      have hne : tgs ≠ [] := fun h => by rw [h] at hemp; simp at hemp
      have hp : ∀ i t, mget s.tasks i = some t →
          (decide (i ∈ unionBuckets s.tasksByTag tgs) = true ↔ ∃ tg ∈ tgs, tg ∈ t.tags) := by
        intro i t ht
        rw [decide_eq_true_eq, mem_unionBuckets]
        constructor
        · rintro ⟨tg, htg, hb⟩
          obtain ⟨u, hu, hutg⟩ := (hc.tagOk tg i).1 hb
          rw [ht] at hu
          cases hu
          exact ⟨tg, htg, hutg⟩
        · rintro ⟨tg, htg, hmem⟩
          exact ⟨tg, htg, (hc.tagOk tg i).2 ⟨t, ht, hmem⟩⟩
      rw [mem_filter_task (fun i => mem_priorityFiltered hc i) hp id]
      apply exists_congr
      intro t
      constructor
      · rintro ⟨h1, ⟨h2, h3⟩, h4⟩
        exact ⟨h1, h2, h3, fun _ => h4⟩
      · rintro ⟨h1, h2, h3, h4⟩
        exact ⟨h1, ⟨h2, h3⟩, h4 hne⟩

theorem mem_projectFiltered {s : IndexStore} {q : SearchQuery} (hc : Consistent s)
    (id : ID) :
    id ∈ projectFiltered s q ↔
      ∃ t, mget s.tasks id = some t ∧
        statusCond q t ∧ prioCond q t ∧ tagCond q t ∧ projCond q t := by
  unfold projectFiltered projCond
  cases hq : q.projectId with
  | none =>
    dsimp only
    rw [mem_tagFiltered hc id]
    simp [and_assoc]
  | some pid =>
    dsimp only
    by_cases hpe : pid = ""
    · rw [if_pos hpe]
      subst hpe
      rw [mem_tagFiltered hc id]
      apply exists_congr
      intro t
      constructor
      · rintro ⟨h1, h2, h3, h4⟩
        exact ⟨h1, h2, h3, h4, fun hne => absurd rfl hne⟩
      · rintro ⟨h1, h2, h3, h4, -⟩
        exact ⟨h1, h2, h3, h4⟩
    · rw [if_neg hpe]
      cases hb : mget s.tasksByProject pid with
      | some b =>
        have hp : ∀ i t, mget s.tasks i = some t →
            (decide (i ∈ b) = true ↔ t.projectId = some pid) := by
          intro i t ht
          rw [decide_eq_true_eq]
          have hbm : bucketMem s.tasksByProject pid i = true ↔ i ∈ b := by
            unfold bucketMem
            rw [hb]
            simp
          rw [← hbm, hc.projOk pid i]
          constructor
          · rintro ⟨u, hu, hupid, -⟩
            rw [ht] at hu
            cases hu
            exact hupid
          · intro hpid
            exact ⟨t, ht, hpid, hpe⟩
        rw [mem_filter_task (fun i => mem_tagFiltered hc i) hp id]
        apply exists_congr
        intro t
        constructor
        · rintro ⟨h1, ⟨h2, h3, h4⟩, h5⟩
          exact ⟨h1, h2, h3, h4, fun _ => h5⟩
        · rintro ⟨h1, h2, h3, h4, h5⟩
          exact ⟨h1, ⟨h2, h3, h4⟩, h5 hpe⟩
      | none =>
        constructor
        · intro h
          simp at h
        · rintro ⟨t, ht, -, -, -, hpj⟩
          exfalso
          have hpid : t.projectId = some pid := hpj hpe
          have hbm : bucketMem s.tasksByProject pid id = true :=
            (hc.projOk pid id).2 ⟨t, ht, hpid, hpe⟩
          rw [bucketMem_iff] at hbm
          obtain ⟨b, hb', -⟩ := hbm
          rw [hb] at hb'
          cases hb'

theorem dueFiltered_eq {s : IndexStore} {q : SearchQuery} (hdue : q.dueBefore = none) :
    dueFiltered s q = projectFiltered s q := by
  unfold dueFiltered
  rw [hdue]

theorem textFiltered_eq {s : IndexStore} {q : SearchQuery}
    (htext : textTruthy q.text = false) :
    textFiltered s q = dueFiltered s q := by
  unfold textFiltered
  cases hq : q.text with
  | none => rfl
  | some txt =>
    have hte : txt = "" := by
      rw [hq] at htext
      simpa [textTruthy] using htext
    dsimp only
    rw [if_pos hte]

theorem noFilters_fields {q : SearchQuery} (h : noFilters q = true) :
    textTruthy q.text = false ∧ q.statuses = none ∧ q.priorities = none ∧
      q.tags = none ∧ idTruthy q.projectId = false ∧ q.dueBefore = none := by
  unfold noFilters at h
  simp only [Bool.and_eq_true, Bool.not_eq_true', Option.isNone_iff_eq_none] at h
  tauto

theorem mem_candidateIds {s : IndexStore} {q : SearchQuery} (hc : Consistent s)
    (htext : textTruthy q.text = false) (hdue : q.dueBefore = none) (id : ID) :
    id ∈ candidateIds s q ↔ ∃ t, mget s.tasks id = some t ∧ catCond q t := by
  unfold candidateIds
  by_cases hnf : noFilters q = true
  · rw [if_pos hnf]
    obtain ⟨-, hst, hpr, htg, hpid, -⟩ := noFilters_fields hnf
    rw [mem_keysOf]
    unfold catCond statusCond prioCond tagCond projCond
    rw [hst, hpr, htg]
    dsimp only
    cases hq : q.projectId with
    | none =>
      dsimp only
      simp
    | some pid =>
      dsimp only
      have hpide : pid = "" := by
        rw [hq] at hpid
        simpa [idTruthy] using hpid
      subst hpide
      constructor
      · rintro ⟨v, hv⟩
        exact ⟨v, hv, trivial, trivial, trivial, fun hne => absurd rfl hne⟩
      · rintro ⟨t, ht, -⟩
        exact ⟨t, ht⟩
  · rw [if_neg hnf]
    rw [textFiltered_eq htext, dueFiltered_eq hdue]
    exact mem_projectFiltered hc id

/-! ### Facts about hydration and sorting -/

theorem hydrateOne_task {s : IndexStore} {now : Nat} {tid : ID} {item : TaskListItem}
    (h : hydrateOne s now tid = some item) : mget s.tasks tid = some item.task := by
  unfold hydrateOne at h
  cases hm : mget s.tasks tid with
  | none => rw [hm] at h; cases h
  | some t =>
    rw [hm] at h
    injection h with h'
    rw [← h']

theorem hydrateOne_isOverdue {s : IndexStore} {now : Nat} {tid : ID}
    {item : TaskListItem} (h : hydrateOne s now tid = some item) :
    item.isOverdue = isOverdueAt item.task now := by
  unfold hydrateOne at h
  cases hm : mget s.tasks tid with
  | none => rw [hm] at h; cases h
  | some t =>
    rw [hm] at h
    injection h with h'
    rw [← h']

theorem hydrateOne_of_task {s : IndexStore} {now : Nat} {tid : ID} {t : Task}
    (hm : mget s.tasks tid = some t) :
    hydrateOne s now tid =
      some { task := t,
             project :=
               match t.projectId with
               | some pid => if pid = "" then none else mget s.projects pid
               | none => none,
             tagObjects := t.tags.filterMap (fun tagId => mget s.tags tagId),
             isOverdue := isOverdueAt t now,
             daysUntilDue :=
               match t.dueAt with
               | some d => some (ceilDiv ((d : Int) - (now : Int)) (msPerDay : Int))
               | none => none } := by
  unfold hydrateOne
  rw [hm]

theorem searchTasks_mem_items {s : IndexStore} {q : SearchQuery} {now : Nat}
    {item : TaskListItem} :
    item ∈ IndexStore.searchTasks s q now ↔
      ∃ tid ∈ candidateIds s q, hydrateOne s now tid = some item := by
  unfold IndexStore.searchTasks
  cases hs : q.sort with
  | none =>
    dsimp only
    exact List.mem_filterMap
  | some sp =>
    dsimp only
    rw [List.mem_insertionSort]
    exact List.mem_filterMap

theorem mem_searchTasks_id {s : IndexStore} {q : SearchQuery} {now : Nat}
    (hc : Consistent s) (id : ID) :
    (∃ item ∈ IndexStore.searchTasks s q now, item.task.id = id) ↔
      (id ∈ candidateIds s q ∧ ∃ t, mget s.tasks id = some t) := by
  constructor
  · rintro ⟨item, hmem, hid⟩
    rw [searchTasks_mem_items] at hmem
    obtain ⟨tid, htid, hh⟩ := hmem
    have hmt := hydrateOne_task hh
    have hti : item.task.id = tid := hc.keyOk tid item.task hmt
    have htid_eq : tid = id := by rw [← hti, hid]
    rw [htid_eq] at htid hmt
    exact ⟨htid, item.task, hmt⟩
  · rintro ⟨hcand, t, ht⟩
    refine ⟨_, searchTasks_mem_items.2 ⟨id, hcand, hydrateOne_of_task ht⟩, ?_⟩
    exact hc.keyOk id t ht

theorem svLt_asymm : ∀ (x y : SortVal), svLt x y = true → svLt y x = false
  | .vstr a, .vstr b, h => by
    simp only [svLt, decide_eq_true_eq, decide_eq_false_iff_not] at h ⊢
    exact not_lt.2 (le_of_lt h)
  | .vstr a, .vnum b, h => by simp [svLt] at h
  | .vnum a, .vstr b, h => by simp [svLt] at h
  | .vnum a, .vnum b, h => by
    simp only [svLt, decide_eq_true_eq, decide_eq_false_iff_not] at h ⊢
    omega

theorem sortLe_total (sp : SortSpec) (a b : TaskListItem) :
    sortLe sp a b = true ∨ sortLe sp b a = true := by
  unfold sortLe sortCmp
  by_cases h1 : svLt (sortValOf sp.field a) (sortValOf sp.field b) = true
  · have h1' := svLt_asymm _ _ h1
    cases hdir : sp.dir <;> simp [h1, h1']
  · by_cases h2 : svLt (sortValOf sp.field b) (sortValOf sp.field a) = true
    · have h2' := svLt_asymm _ _ h2
      cases hdir : sp.dir <;> simp [h1, h2, h2']
    · rw [Bool.not_eq_true] at h1 h2
      simp [h1, h2]

theorem sortLe_asc_iff (sp : SortSpec) (hdir : sp.dir = SortDirection.asc)
    (a b : TaskListItem) :
    sortLe sp a b = true ↔
      svLt (sortValOf sp.field b) (sortValOf sp.field a) = false := by
  unfold sortLe sortCmp
  by_cases h1 : svLt (sortValOf sp.field a) (sortValOf sp.field b) = true
  · have h1' := svLt_asymm _ _ h1
    simp [h1, h1', hdir]
  · rw [Bool.not_eq_true] at h1
    by_cases h2 : svLt (sortValOf sp.field b) (sortValOf sp.field a) = true
    · simp [h1, h2, hdir]
    · rw [Bool.not_eq_true] at h2
      simp [h1, h2]

theorem sortLe_desc_iff (sp : SortSpec) (hdir : sp.dir = SortDirection.desc)
    (a b : TaskListItem) :
    sortLe sp a b = true ↔
      svLt (sortValOf sp.field a) (sortValOf sp.field b) = false := by
  unfold sortLe sortCmp
  by_cases h1 : svLt (sortValOf sp.field a) (sortValOf sp.field b) = true
  · have h1' := svLt_asymm _ _ h1
    simp [h1, h1', hdir]
  · rw [Bool.not_eq_true] at h1
    by_cases h2 : svLt (sortValOf sp.field b) (sortValOf sp.field a) = true
    · simp [h1, h2, hdir]
    · rw [Bool.not_eq_true] at h2
      simp [h1, h2]

theorem int_negtrans {x y z : Int} (h1 : ¬ y < x) (h2 : ¬ z < y) : ¬ z < x := by
  omega

theorem str_negtrans {x y z : String} (h1 : ¬ y < x) (h2 : ¬ z < y) : ¬ z < x := by
  rw [not_lt] at h1 h2 ⊢
  exact le_trans h1 h2

theorem svLt_negtrans_field (f : SortField) (a b c : TaskListItem)
    (h1 : svLt (sortValOf f b) (sortValOf f a) = false)
    (h2 : svLt (sortValOf f c) (sortValOf f b) = false) :
    svLt (sortValOf f c) (sortValOf f a) = false := by
  cases f <;>
    simp only [sortValOf, svLt, decide_eq_false_iff_not] at h1 h2 ⊢
  · exact str_negtrans h1 h2
  · exact int_negtrans h1 h2
  · exact int_negtrans h1 h2
  · exact int_negtrans h1 h2
  · exact int_negtrans h1 h2

theorem sortLe_trans (sp : SortSpec) (a b c : TaskListItem)
    (hab : sortLe sp a b = true) (hbc : sortLe sp b c = true) :
    sortLe sp a c = true := by
  cases hdir : sp.dir
  · rw [sortLe_asc_iff sp hdir] at hab hbc ⊢
    exact svLt_negtrans_field sp.field a b c hab hbc
  · rw [sortLe_desc_iff sp hdir] at hab hbc ⊢
    exact svLt_negtrans_field sp.field c b a hbc hab

theorem candidateIds_sort_irrel (s : IndexStore) (q : SearchQuery)
    (sp : Option SortSpec) :
    candidateIds s { q with sort := sp } = candidateIds s q := rfl

theorem searchTasks_base (s : IndexStore) (q : SearchQuery) (now : Nat) :
    IndexStore.searchTasks s { q with sort := none } now =
      (candidateIds s q).filterMap (hydrateOne s now) := rfl

theorem searchTasks_sort_eq {s : IndexStore} {q : SearchQuery} {now : Nat}
    {sp : SortSpec} (hs : q.sort = some sp) :
    IndexStore.searchTasks s q now =
      List.insertionSort (fun a b => sortLe sp a b = true)
        (IndexStore.searchTasks s { q with sort := none } now) := by
  rw [searchTasks_base]
  unfold IndexStore.searchTasks
  rw [hs]

theorem searchTasks_perm {s : IndexStore} {q : SearchQuery} {now : Nat}
    {sp : SortSpec} (hs : q.sort = some sp) :
    (IndexStore.searchTasks s q now).Perm
      (IndexStore.searchTasks s { q with sort := none } now) := by
  rw [searchTasks_sort_eq hs]
  exact List.perm_insertionSort _ _

theorem searchTasks_sorted {s : IndexStore} {q : SearchQuery} {now : Nat}
    {sp : SortSpec} (hs : q.sort = some sp) :
    (IndexStore.searchTasks s q now).Pairwise (fun a b => sortLe sp a b = true) := by
  rw [searchTasks_sort_eq hs]
  letI : IsTotal TaskListItem (fun a b => sortLe sp a b = true) :=
    ⟨fun a b => sortLe_total sp a b⟩
  letI : IsTrans TaskListItem (fun a b => sortLe sp a b = true) :=
    ⟨fun a b c => sortLe_trans sp a b c⟩
  exact List.sorted_insertionSort _ _

theorem searchTasks_stable {s : IndexStore} {q : SearchQuery} {now : Nat}
    {sp : SortSpec} (hs : q.sort = some sp) (a b : TaskListItem)
    (hab : sortLe sp a b = true)
    (hsub : [a, b].Sublist (IndexStore.searchTasks s { q with sort := none } now)) :
    [a, b].Sublist (IndexStore.searchTasks s q now) := by
  rw [searchTasks_sort_eq hs]
  exact List.pair_sublist_insertionSort hab hsub

theorem searchTasks_overdueSet_irrel (s : IndexStore) (q : SearchQuery) (now : Nat)
    (od : List ID) :
    IndexStore.searchTasks { s with overdueTasks := od } q now =
      IndexStore.searchTasks s q now := rfl

/-! ### Empty-category collapse helpers -/

theorem priorityFiltered_nil_of {s : IndexStore} {q : SearchQuery}
    (h : statusFiltered s q = []) : priorityFiltered s q = [] := by
  unfold priorityFiltered
  cases hq : q.priorities with
  | none => exact h
  | some ps =>
    dsimp only
    by_cases hemp : ps.isEmpty
    · rw [if_pos hemp]; exact h
    · rw [if_neg hemp, h]; rfl

theorem tagFiltered_nil_of {s : IndexStore} {q : SearchQuery}
    (h : priorityFiltered s q = []) : tagFiltered s q = [] := by
  unfold tagFiltered
  cases hq : q.tags with
  | none => exact h
  | some tgs =>
    dsimp only
    by_cases hemp : tgs.isEmpty
    · rw [if_pos hemp]; exact h
    · rw [if_neg hemp, h]; rfl

theorem projectFiltered_nil_of {s : IndexStore} {q : SearchQuery}
    (h : tagFiltered s q = []) : projectFiltered s q = [] := by
  unfold projectFiltered
  cases hq : q.projectId with
  | none => exact h
  | some pid =>
    dsimp only
    by_cases hpe : pid = ""
    · rw [if_pos hpe]; exact h
    · rw [if_neg hpe]
      cases hb : mget s.tasksByProject pid with
      | none => rfl
      | some b => rw [h]; rfl

theorem dueFiltered_nil_of {s : IndexStore} {q : SearchQuery}
    (h : projectFiltered s q = []) : dueFiltered s q = [] := by
  unfold dueFiltered
  cases hq : q.dueBefore with
  | none => exact h
  | some cutoff => rw [h]; rfl

theorem textFiltered_nil_of {s : IndexStore} {q : SearchQuery}
    (h : dueFiltered s q = []) : textFiltered s q = [] := by
  unfold textFiltered
  cases hq : q.text with
  | none => exact h
  | some txt =>
    dsimp only
    by_cases hte : txt = ""
    · rw [if_pos hte]; exact h
    · rw [if_neg hte, h]; rfl

theorem searchTasks_nil_of {s : IndexStore} {q : SearchQuery} {now : Nat}
    (h : candidateIds s q = []) : IndexStore.searchTasks s q now = [] := by
  unfold IndexStore.searchTasks
  rw [h]
  cases q.sort <;> rfl

theorem parseStep_text (store : IndexStore) (dueOf : String → Option Nat)
    (q : SearchQuery) (tok : String) :
    (SearchService.parseStep store dueOf q tok).text =
      (if isFreeTok tok = true then SearchService.joinText q.text tok else q.text) := by
  unfold SearchService.parseStep
  by_cases h1 : strStarts tok "status:" = true
  · rw [if_pos h1]
    rw [if_neg (by simp [isFreeTok, h1])]
    cases statusOfString (strDropn tok 7) <;> rfl
  · rw [if_neg h1]
    by_cases h2 : strStarts tok "priority:" = true
    · rw [if_pos h2]
      rw [if_neg (by simp [isFreeTok, h2])]
      cases parseIntJs (strDropn tok 9) with
      | none => rfl
      | some p =>
        dsimp only
        by_cases hr : 1 ≤ p ∧ p ≤ 5
        · rw [if_pos hr]
        · rw [if_neg hr]
    · rw [if_neg h2]
      by_cases h3 : strStarts tok "tag:" = true
      · rw [if_pos h3]
        rw [if_neg (by simp [isFreeTok, h3])]
        cases IndexStore.getTagByName store (strDropn tok 4) <;> rfl
      · rw [if_neg h3]
        by_cases h4 : strStarts tok "project:" = true
        · rw [if_pos h4]
          rw [if_neg (by simp [isFreeTok, h4])]
          cases (IndexStore.getAllProjects store).find?
              (fun p => strLower p.name = strLower (strDropn tok 8)) <;> rfl
        · rw [if_neg h4]
          by_cases h5 : strStarts tok "due:" = true
          · rw [if_pos h5]
            rw [if_neg (by simp [isFreeTok, h5])]
            cases dueOf (strDropn tok 4) <;> rfl
          · rw [if_neg h5]
            by_cases h6 : strStarts tok "sort:" = true
            · rw [if_pos h6]
              rw [if_neg (by simp [isFreeTok, h6])]
              cases hsc : splitColon (strDropn tok 5) with
              | nil => rfl
              | cons fs rest =>
                cases rest with
                | nil => rfl
                | cons ds rest2 =>
                  cases rest2 with
                  | nil =>
                    dsimp only
                    cases sortFieldOfString fs <;> cases sortDirOfString ds <;> rfl
                  | cons x xs => rfl
            · rw [if_neg h6]
              by_cases h7 : strStarts tok "+" = true
              · rw [if_pos h7]
                rw [if_neg (by simp [isFreeTok, h7])]
                cases IndexStore.getTagByName store (strDropn tok 1) <;> rfl
              · rw [if_neg h7]
                have e1 := Bool.eq_false_iff.2 h1
                have e2 := Bool.eq_false_iff.2 h2
                have e3 := Bool.eq_false_iff.2 h3
                have e4 := Bool.eq_false_iff.2 h4
                have e5 := Bool.eq_false_iff.2 h5
                have e6 := Bool.eq_false_iff.2 h6
                have e7 := Bool.eq_false_iff.2 h7
                have hfree : isFreeTok tok = true := by
                  simp [isFreeTok, e1, e2, e3, e4, e5, e6, e7]
                rw [if_pos hfree]
                by_cases h8 : strStarts tok "-" = true
                · rw [if_pos h8]
                · rw [if_neg h8]

theorem parseQueryTokens_text (store : IndexStore) (dueOf : String → Option Nat) :
    ∀ (toks : List String) (q : SearchQuery),
      ((toks.foldl (SearchService.parseStep store dueOf) q).text)
        = joinAll q.text (toks.filter isFreeTok) := by
  intro toks
  induction toks with
  | nil => intro q; rfl
  | cons tok toks ih =>
    intro q
    rw [List.foldl_cons, ih (SearchService.parseStep store dueOf q tok)]
    by_cases hfree : isFreeTok tok = true
    · rw [List.filter_cons_of_pos hfree]
      rw [parseStep_text, if_pos hfree]
      unfold joinAll
      rw [List.foldl_cons]
    · rw [List.filter_cons_of_neg (by simp [hfree])]
      rw [parseStep_text, if_neg (by simp [hfree])]

theorem append_space_ne_empty (s tok : String) : s ++ " " ++ tok ≠ "" := by
  intro hcon
  have hlen := congrArg String.length hcon
  rw [String.length_append, String.length_append] at hlen
  have h1 : (" " : String).length = 1 := rfl
  rw [h1] at hlen
  have h0 : ("" : String).length = 0 := rfl
  rw [h0] at hlen
  omega

theorem joinAll_some (toks : List String) :
    ∀ (s : String), s ≠ "" → joinAll (some s) toks = some (joinSpaces (s :: toks)) := by
  induction toks with
  | nil => intro s _; rfl
  | cons tok toks ih =>
    intro s hs
    have hstep : joinAll (some s) (tok :: toks) = joinAll (some (s ++ " " ++ tok)) toks := by
      unfold joinAll
      rw [List.foldl_cons]
      unfold SearchService.joinText
      dsimp only
      rw [if_pos hs]
    rw [hstep, ih (s ++ " " ++ tok) (append_space_ne_empty s tok)]
    congr 1
    cases toks with
    | nil => rfl
    | cons t' ts =>
      show (s ++ " " ++ tok) ++ " " ++ joinSpaces (t' :: ts) =
        s ++ " " ++ (tok ++ " " ++ joinSpaces (t' :: ts))
      simp [String.append_assoc]

theorem joinAll_none_eq (toks : List String) (h : toks ≠ [])
    (hne : ∀ t ∈ toks, t ≠ "") :
    joinAll none toks = some (joinSpaces toks) := by
  cases toks with
  | nil => exact absurd rfl h
  | cons tok toks =>
    show joinAll (some tok) toks = _
    exact joinAll_some toks tok (hne tok (List.mem_cons_self _ _))

/-! ### Claim theorems -/

theorem mget_removeTask_self (s : IndexStore) (id : ID) :
    mget (IndexStore.removeTask s id).tasks id = none := by
  unfold IndexStore.removeTask
  cases h : mget s.tasks id with
  | none => exact h
  | some t =>
    dsimp only
    rw [mget_mdel]
    simp

/-- C1: for a consistent store and a query whose text and dueBefore are
unspecified, with at least one of statuses, priorities, tags, projectId
specified (present and nonempty), `searchTasks` returns exactly the stored
tasks that satisfy every specified category's constraint: status in the given
statuses (OR within the category), priority in the given priorities, at least
one of the given tag ids, and projectId equal to the given project id (AND
across categories); unspecified categories impose no constraint. -/
theorem searchTasks_category_composition (s : IndexStore) (q : SearchQuery)
    (now : Nat) (hc : Consistent s) (htext : textTruthy q.text = false)
    (hdue : q.dueBefore = none)
    (hspec : (∃ sts, q.statuses = some sts ∧ sts ≠ []) ∨
      (∃ ps, q.priorities = some ps ∧ ps ≠ []) ∨
      (∃ tgs, q.tags = some tgs ∧ tgs ≠ []) ∨
      (∃ pid, q.projectId = some pid ∧ pid ≠ "")) (id : ID) :
    (∃ item ∈ IndexStore.searchTasks s q now, item.task.id = id) ↔
      ∃ t, mget s.tasks id = some t ∧ catCond q t := by
  rw [mem_searchTasks_id hc id]
  constructor
  · rintro ⟨hcand, t, ht⟩
    exact (mem_candidateIds hc htext hdue id).1 hcand
  · rintro ⟨t, ht, hcc⟩
    exact ⟨(mem_candidateIds hc htext hdue id).2 ⟨t, ht, hcc⟩, t, ht⟩

theorem searchTasks_category_composition_witness :
    (∃ item ∈ IndexStore.searchTasks exStore exQuery1 100, item.task.id = "c3") ↔
      ∃ t, mget exStore.tasks "c3" = some t ∧ catCond exQuery1 t :=
  searchTasks_category_composition exStore exQuery1 100
    (consistent_runOps exOps (by decide)) rfl rfl
    (Or.inl ⟨[Status.todo, Status.doing], rfl, by decide⟩) "c3"

/-- C2 counterexample: after `addTask` with an id already in the store (which
the claim's unrestricted "any sequence of addTask, updateTask, removeTask"
permits), the stored task has status done, yet its id is still in the todo
bucket — it is not "in exactly the status bucket for t.status". -/
theorem addTask_duplicate_id_breaks_buckets :
    mget dupStore.tasks "x" = some dupTask2 ∧ dupTask2.status = Status.done ∧
      bucketMem dupStore.tasksByStatus Status.todo "x" = true := by decide

/-- C2 (amended): after any sequence of addTask (with fresh ids, as the
service layer's UUID factory guarantees), updateTask and removeTask from the
empty store, every stored task's id is in exactly the status bucket of its
status, the priority bucket of its priority, the tag bucket of each of its
tags, and the project bucket of its (nonempty) projectId; and after
`removeTask(id)`, the id is in zero buckets of all four categories and not
in the overdue set. -/
theorem index_exactness_after_ops (ops : List StoreOp)
    (hok : opsOk {} ops = true) :
    (∀ id t, mget (runOps ops).tasks id = some t →
      (∀ st, bucketMem (runOps ops).tasksByStatus st id = true ↔ st = t.status) ∧
      (∀ p, bucketMem (runOps ops).tasksByPriority p id = true ↔ p = t.priority) ∧
      (∀ tg, bucketMem (runOps ops).tasksByTag tg id = true ↔ tg ∈ t.tags) ∧
      (∀ pid, bucketMem (runOps ops).tasksByProject pid id = true ↔
        (t.projectId = some pid ∧ pid ≠ ""))) ∧
    (∀ rid,
      (∀ st, bucketMem (IndexStore.removeTask (runOps ops) rid).tasksByStatus st rid
        = false) ∧
      (∀ p, bucketMem (IndexStore.removeTask (runOps ops) rid).tasksByPriority p rid
        = false) ∧
      (∀ tg, bucketMem (IndexStore.removeTask (runOps ops) rid).tasksByTag tg rid
        = false) ∧
      (∀ pid, bucketMem (IndexStore.removeTask (runOps ops) rid).tasksByProject pid rid
        = false) ∧
      rid ∉ (IndexStore.removeTask (runOps ops) rid).overdueTasks) := by
  have hc := consistent_runOps ops hok
  constructor
  · intro id t ht
    refine ⟨?_, ?_, ?_, ?_⟩
    · intro st
      rw [hc.statusOk st id]
      constructor
      · rintro ⟨u, hu, hus⟩
        rw [ht] at hu
        cases hu
        exact hus.symm
      · rintro rfl
        exact ⟨t, ht, rfl⟩
    · intro p
      rw [hc.prioOk p id]
      constructor
      · rintro ⟨u, hu, hup⟩
        rw [ht] at hu
        cases hu
        exact hup.symm
      · rintro rfl
        exact ⟨t, ht, rfl⟩
    · intro tg
      rw [hc.tagOk tg id]
      constructor
      · rintro ⟨u, hu, hm⟩
        rw [ht] at hu
        cases hu
        exact hm
      · intro hm
        exact ⟨t, ht, hm⟩
    · intro pid
      rw [hc.projOk pid id]
      constructor
      · rintro ⟨u, hu, h1, h2⟩
        rw [ht] at hu
        cases hu
        exact ⟨h1, h2⟩
      · rintro ⟨h1, h2⟩
        exact ⟨t, ht, h1, h2⟩
  · intro rid
    have hc' := consistent_removeTask rid hc
    have hnone := mget_removeTask_self (runOps ops) rid
    refine ⟨?_, ?_, ?_, ?_, ?_⟩
    · exact fun st => bucketMem_eq_false_of_none_status hc' hnone st
    · exact fun p => bucketMem_eq_false_of_none_prio hc' hnone p
    · exact fun tg => bucketMem_eq_false_of_none_tag hc' hnone tg
    · exact fun pid => bucketMem_eq_false_of_none_proj hc' hnone pid
    · intro hmem
      obtain ⟨u, hu⟩ := hc'.overdueOk rid hmem
      rw [hnone] at hu
      cases hu

theorem index_exactness_after_ops_witness :
    (∀ st, bucketMem (runOps exOps).tasksByStatus st "c3" = true ↔ st = exTask3.status) ∧
      "a1" ∉ (IndexStore.removeTask (runOps exOps) "a1").overdueTasks :=
  ⟨((index_exactness_after_ops exOps (by decide)).1 "c3" exTask3 (by decide)).1,
   (((index_exactness_after_ops exOps (by decide)).2 "a1").2.2.2.2)⟩

/-- C3: `createTask` sets completedAt exactly when the input status is done
(so completedAt is present iff status is done), and `updateTask` preserves
the invariant: it sets completedAt to the current instant when the update
carries status done, clears it when the update carries any other status, and
leaves both status and completedAt untouched when no status is supplied. -/
theorem completedAt_iff_done :
    ∀ (input : CreateTaskInput) (now : Nat) (newId : ID),
      ((createTask input now newId).completedAt.isSome ↔
        (createTask input now newId).status = Status.done) ∧
      (createTask input now newId).completedAt =
        (if input.status = some Status.done then some now else none) ∧
      ∀ (task : Task) (uin : UpdateTaskInput) (now2 : Nat),
        (task.completedAt.isSome ↔ task.status = Status.done) →
        ((updateTask task uin now2).completedAt.isSome ↔
          (updateTask task uin now2).status = Status.done) ∧
        (uin.status = none → (updateTask task uin now2).status = task.status ∧
          (updateTask task uin now2).completedAt = task.completedAt) ∧
        (∀ st, uin.status = some st → (updateTask task uin now2).status = st ∧
          (updateTask task uin now2).completedAt =
            (if st = Status.done then some now2 else none)) := by
  intro input now newId
  refine ⟨?_, ?_, ?_⟩
  · unfold createTask
    dsimp only
    cases hin : input.status with
    | none => simp
    | some st => cases st <;> simp
  · unfold createTask
    rfl
  · intro task uin now2 hinv
    have key : ((updateTask task uin now2).status,
        (updateTask task uin now2).completedAt) =
      (match uin.status with
       | some v => (v, if v = Status.done then some now2 else none)
       | none => (task.status, task.completedAt)) := by
      unfold updateTask
      cases uin.title <;> cases uin.notes <;> cases uin.status <;>
        cases uin.priority <;> cases uin.projectId <;> cases uin.tags <;>
        cases uin.dueAt <;> rfl
    have kst := congrArg Prod.fst key
    have kca := congrArg Prod.snd key
    dsimp only at kst kca
    refine ⟨?_, ?_, ?_⟩
    · cases hst : uin.status with
      | none =>
        rw [hst] at kst kca
        dsimp only at kst kca
        rw [kst, kca]
        exact hinv
      | some v =>
        rw [hst] at kst kca
        dsimp only at kst kca
        rw [kst, kca]
        cases v <;> simp
    · intro hnone
      rw [hnone] at kst kca
      dsimp only at kst kca
      exact ⟨kst, kca⟩
    · intro st hsome
      rw [hsome] at kst kca
      dsimp only at kst kca
      exact ⟨kst, kca⟩

theorem completedAt_iff_done_witness :
    (updateTask exTask1 exUpd 7).status = Status.done ∧
      (updateTask exTask1 exUpd 7).completedAt =
        (if Status.done = Status.done then some 7 else none) :=
  ((completedAt_iff_done { title := "T" } 0 "z").2.2 exTask1 exUpd 7
    (by decide)).2.2 Status.done rfl

/-- C4: every hydrated record returned by `searchTasks` carries an isOverdue
flag recomputed from the query-time instant (and independent of the
maintained overdue set): no due date is never overdue, a past due date with
status done is never overdue, and a past due date with any other status is
overdue. -/
theorem searchTasks_overdue_flag (s : IndexStore) (q : SearchQuery) (now : Nat)
    (item : TaskListItem) (h : item ∈ IndexStore.searchTasks s q now) :
    item.isOverdue = isOverdueAt item.task now ∧
    (item.task.dueAt = none → item.isOverdue = false) ∧
    (∀ d, item.task.dueAt = some d → d < now → item.task.status = Status.done →
      item.isOverdue = false) ∧
    (∀ d, item.task.dueAt = some d → d < now → item.task.status ≠ Status.done →
      item.isOverdue = true) ∧
    (∀ od, IndexStore.searchTasks { s with overdueTasks := od } q now =
      IndexStore.searchTasks s q now) := by
  have hov : item.isOverdue = isOverdueAt item.task now := by
    rw [searchTasks_mem_items] at h
    obtain ⟨tid, -, hh⟩ := h
    exact hydrateOne_isOverdue hh
  refine ⟨hov, ?_, ?_, ?_, fun od => searchTasks_overdueSet_irrel s q now od⟩
  · intro hd
    rw [hov]
    unfold isOverdueAt
    rw [hd]
  · intro d hd hlt hdone
    rw [hov]
    unfold isOverdueAt
    rw [hd]
    simp [hdone]
  · intro d hd hlt hne
    rw [hov]
    unfold isOverdueAt
    rw [hd]
    simp [hlt, hne]

theorem searchTasks_overdue_flag_witness :
    exItem3.isOverdue = true ∧ exItem3.task.dueAt = some 50 ∧ 50 < 100 ∧
      exItem3.task.status ≠ Status.done :=
  ⟨(searchTasks_overdue_flag exStore {} 100 exItem3 (by decide)).2.2.2.1 50
      (by decide) (by decide) (by decide),
   by decide, by decide, by decide⟩

/-- C5: with a sort specification, `searchTasks` returns a permutation of the
unsorted hydrated results that is ordered by the comparator (title lowercase
lexicographic, priority and timestamps numeric, missing due dates treated as
`Number.MAX_SAFE_INTEGER`, direction flipping the sign), the sort is stable
(any comparator-nondecreasing pair keeps its pre-sort relative order), and in
particular tasks with priorities [3,1,5,2] sorted by priority ascending come
out in priority order [1,2,3,5]. -/
theorem searchTasks_sort_spec (s : IndexStore) (q : SearchQuery) (now : Nat)
    (sp : SortSpec) (hs : q.sort = some sp) :
    (IndexStore.searchTasks s q now).Perm
      (IndexStore.searchTasks s { q with sort := none } now) ∧
    (IndexStore.searchTasks s q now).Pairwise (fun a b => sortLe sp a b = true) ∧
    (∀ a b, sortLe sp a b = true →
      [a, b].Sublist (IndexStore.searchTasks s { q with sort := none } now) →
      [a, b].Sublist (IndexStore.searchTasks s q now)) ∧
    (IndexStore.searchTasks exStore
        { sort := some ⟨SortField.priority, SortDirection.asc⟩ } 100).map
      (fun it => it.task.priority) = [1, 2, 3, 5] :=
  ⟨searchTasks_perm hs, searchTasks_sorted hs,
   fun a b hab hsub => searchTasks_stable hs a b hab hsub, by decide⟩

theorem searchTasks_sort_spec_witness :
    (IndexStore.searchTasks exStore
        { sort := some ⟨SortField.priority, SortDirection.asc⟩ } 100).Pairwise
      (fun a b => sortLe ⟨SortField.priority, SortDirection.asc⟩ a b = true) :=
  (searchTasks_sort_spec exStore
    { sort := some ⟨SortField.priority, SortDirection.asc⟩ } 100
    ⟨SortField.priority, SortDirection.asc⟩ rfl).2.1

/-- C6: for an id absent from the store, `TaskService.update` and
`TaskService.remove` return a not-found failure and leave the store — in
particular every index bucket map — completely unchanged: the existence
check precedes any index mutation. -/
theorem service_notFound_unchanged (s : IndexStore) (input : UpdateTaskInput)
    (id : ID) (now : Nat) (hupd : mget s.tasks input.id = none)
    (hrem : mget s.tasks id = none) :
    TaskService.update s input now =
      (SvcResult.err ("Task with ID " ++ input.id ++ " not found"), s) ∧
    (TaskService.update s input now).2.tasks = s.tasks ∧
    (TaskService.update s input now).2.tasksByStatus = s.tasksByStatus ∧
    (TaskService.update s input now).2.tasksByPriority = s.tasksByPriority ∧
    (TaskService.update s input now).2.tasksByTag = s.tasksByTag ∧
    (TaskService.update s input now).2.tasksByProject = s.tasksByProject ∧
    (TaskService.update s input now).2.overdueTasks = s.overdueTasks ∧
    TaskService.remove s id =
      (SvcResult.err ("Task with ID " ++ id ++ " not found"), s) ∧
    (TaskService.remove s id).2.tasks = s.tasks ∧
    (TaskService.remove s id).2.tasksByStatus = s.tasksByStatus ∧
    (TaskService.remove s id).2.tasksByPriority = s.tasksByPriority ∧
    (TaskService.remove s id).2.tasksByTag = s.tasksByTag ∧
    (TaskService.remove s id).2.tasksByProject = s.tasksByProject ∧
    (TaskService.remove s id).2.overdueTasks = s.overdueTasks := by
  have hu : TaskService.update s input now =
      (SvcResult.err ("Task with ID " ++ input.id ++ " not found"), s) := by
    unfold TaskService.update
    rw [hupd]
  have hr : TaskService.remove s id =
      (SvcResult.err ("Task with ID " ++ id ++ " not found"), s) := by
    unfold TaskService.remove
    rw [hrem]
  refine ⟨hu, ?_, ?_, ?_, ?_, ?_, ?_, hr, ?_, ?_, ?_, ?_, ?_, ?_⟩ <;>
    first
      | (rw [hu])
      | (rw [hr])

theorem service_notFound_unchanged_witness :
    TaskService.update exStore { id := "zz" } 5 =
      (SvcResult.err ("Task with ID " ++ "zz" ++ " not found"), exStore) ∧
    TaskService.remove exStore "zz" =
      (SvcResult.err ("Task with ID " ++ "zz" ++ " not found"), exStore) :=
  ⟨(service_notFound_unchanged exStore { id := "zz" } "zz" 5 (by decide)
      (by decide)).1,
   (service_notFound_unchanged exStore { id := "zz" } "zz" 5 (by decide)
      (by decide)).2.2.2.2.2.2.2.1⟩

/-- C7 counterexample: a category specified as an empty set does NOT collapse
the result to empty — an empty statuses array is truthy but fails the
`length > 0` test, so it imposes no constraint, and the store's tasks are
returned. -/
theorem empty_status_set_does_not_collapse :
    IndexStore.searchTasks exStore { statuses := some [] } 100 ≠ [] := by decide

/-- C7 (amended): a category specified as a NONEMPTY set whose matching
buckets' union is empty collapses the whole intersection — `searchTasks`
returns the empty sequence — and likewise a nonempty projectId with no
bucket; a category supplied as an empty set, like an absent one, imposes no
constraint (an empty statuses set behaves exactly like an unspecified one). -/
theorem empty_union_collapses (s : IndexStore) (q : SearchQuery) (now : Nat) :
    ((∃ sts, q.statuses = some sts ∧ sts ≠ [] ∧
        unionBuckets s.tasksByStatus sts = []) →
      IndexStore.searchTasks s q now = []) ∧
    ((∃ ps, q.priorities = some ps ∧ ps ≠ [] ∧
        unionBuckets s.tasksByPriority ps = []) →
      IndexStore.searchTasks s q now = []) ∧
    ((∃ tgs, q.tags = some tgs ∧ tgs ≠ [] ∧
        unionBuckets s.tasksByTag tgs = []) →
      IndexStore.searchTasks s q now = []) ∧
    ((∃ pid, q.projectId = some pid ∧ pid ≠ "" ∧
        mget s.tasksByProject pid = none) →
      IndexStore.searchTasks s q now = []) ∧
    (IndexStore.searchTasks s { statuses := some [] } now =
      IndexStore.searchTasks s {} now) := by
  refine ⟨?_, ?_, ?_, ?_, rfl⟩
  · rintro ⟨sts, hsts, hne, hun⟩
    have hnf : ¬ (noFilters q = true) := by
      intro hnf
      rw [(noFilters_fields hnf).2.1] at hsts
      cases hsts
    have h1 : statusFiltered s q = [] := by
      unfold statusFiltered
      rw [hsts]
      dsimp only
      rw [if_neg (by simp [List.isEmpty_iff, hne]), hun]
    apply searchTasks_nil_of
    unfold candidateIds
    rw [if_neg hnf]
    exact textFiltered_nil_of (dueFiltered_nil_of (projectFiltered_nil_of
      (tagFiltered_nil_of (priorityFiltered_nil_of h1))))
  · rintro ⟨ps, hps, hne, hun⟩
    have hnf : ¬ (noFilters q = true) := by
      intro hnf
      rw [(noFilters_fields hnf).2.2.1] at hps
      cases hps
    have h2 : priorityFiltered s q = [] := by
      unfold priorityFiltered
      rw [hps]
      dsimp only
      rw [if_neg (by simp [List.isEmpty_iff, hne]), hun]
      apply List.filter_eq_nil_iff.2
      intro a ha
      simp
    apply searchTasks_nil_of
    unfold candidateIds
    rw [if_neg hnf]
    exact textFiltered_nil_of (dueFiltered_nil_of (projectFiltered_nil_of
      (tagFiltered_nil_of h2)))
  · rintro ⟨tgs, htgs, hne, hun⟩
    have hnf : ¬ (noFilters q = true) := by
      intro hnf
      rw [(noFilters_fields hnf).2.2.2.1] at htgs
      cases htgs
    have h3 : tagFiltered s q = [] := by
      unfold tagFiltered
      rw [htgs]
      dsimp only
      rw [if_neg (by simp [List.isEmpty_iff, hne]), hun]
      apply List.filter_eq_nil_iff.2
      intro a ha
      simp
    apply searchTasks_nil_of
    unfold candidateIds
    rw [if_neg hnf]
    exact textFiltered_nil_of (dueFiltered_nil_of (projectFiltered_nil_of h3))
  · rintro ⟨pid, hpid, hne, hbn⟩
    have hnf : ¬ (noFilters q = true) := by
      intro hnf
      have hfalse := (noFilters_fields hnf).2.2.2.2.1
      rw [hpid] at hfalse
      simp [idTruthy, hne] at hfalse
    have h4 : projectFiltered s q = [] := by
      unfold projectFiltered
      rw [hpid]
      dsimp only
      rw [if_neg hne, hbn]
    apply searchTasks_nil_of
    unfold candidateIds
    rw [if_neg hnf]
    exact textFiltered_nil_of (dueFiltered_nil_of h4)

theorem empty_union_collapses_witness :
    IndexStore.searchTasks exStore { statuses := some [Status.archived] } 100 = [] :=
  (empty_union_collapses exStore { statuses := some [Status.archived] } 100).1
    ⟨[Status.archived], rfl, by decide, by decide⟩

/-- C8: `parseQuery` appends every token matching no recognized prefix —
including tokens with a leading `-`, which are never implemented as
negation — to the free-text filter joined by single spaces; and a `tag:` or
`project:` token naming a tag or project not present in the store is
silently ignored: the parse is total (it can raise no error) and leaves the
query unchanged, so the resulting filter simply omits that constraint. -/
theorem parseQuery_free_text_and_silent_unknowns (store : IndexStore)
    (dueOf : String → Option Nat) :
    (∀ raw, (SearchService.parseQuery store dueOf raw).text =
      joinAll none ((tokenizeQuery raw).filter isFreeTok)) ∧
    (∀ toks : List String, toks ≠ [] → (∀ t ∈ toks, t ≠ "") →
      joinAll none toks = some (joinSpaces toks)) ∧
    (∀ tok, strStarts tok "-" = true → isFreeTok tok = true) ∧
    (∀ (q : SearchQuery) (tok : String),
      strStarts tok "status:" = false → strStarts tok "priority:" = false →
      strStarts tok "tag:" = true →
      IndexStore.getTagByName store (strDropn tok 4) = none →
      SearchService.parseStep store dueOf q tok = q) ∧
    (∀ (q : SearchQuery) (tok : String),
      strStarts tok "status:" = false → strStarts tok "priority:" = false →
      strStarts tok "tag:" = false → strStarts tok "project:" = true →
      (IndexStore.getAllProjects store).find?
        (fun p => strLower p.name = strLower (strDropn tok 8)) = none →
      SearchService.parseStep store dueOf q tok = q) := by
  refine ⟨?_, ?_, ?_, ?_, ?_⟩
  · intro raw
    exact parseQueryTokens_text store dueOf (tokenizeQuery raw) {}
  · exact fun toks h hne => joinAll_none_eq toks h hne
  · intro tok h
    unfold strStarts at h
    unfold isFreeTok strStarts
    cases hd : tok.data with
    | nil =>
      rw [hd] at h
      exact absurd h (by decide)
    | cons c cs =>
      rw [hd] at h
      have h2 : (('-' == c) && true) = true := h
      have hc : c = '-' := by
        simp at h2
        exact h2.symm
      subst hc
      rfl
  · intro q tok h1 h2 h3 hnone
    unfold SearchService.parseStep
    rw [if_neg (by simp [h1]), if_neg (by simp [h2]), if_pos h3, hnone]
  · intro q tok h1 h2 h3 h4 hfind
    unfold SearchService.parseStep
    rw [if_neg (by simp [h1]), if_neg (by simp [h2]), if_neg (by simp [h3]),
      if_pos h4, hfind]

theorem parseQuery_free_text_and_silent_unknowns_witness :
    (SearchService.parseQuery exStore exDueOf "hello -world tag:zzz").text =
      joinAll none ((tokenizeQuery "hello -world tag:zzz").filter isFreeTok) ∧
    joinAll none ["hello", "-world"] = some (joinSpaces ["hello", "-world"]) ∧
    SearchService.parseStep exStore exDueOf {} "tag:zzz" = {} :=
  ⟨(parseQuery_free_text_and_silent_unknowns exStore exDueOf).1
      "hello -world tag:zzz",
   (parseQuery_free_text_and_silent_unknowns exStore exDueOf).2.1
      ["hello", "-world"] (by decide) (by decide),
   (parseQuery_free_text_and_silent_unknowns exStore exDueOf).2.2.2.1 {}
      "tag:zzz" (by decide) (by decide) (by decide) (by decide)⟩

/-- C9: `removeProject(id)` modifies only the projects collection — tasks and
all five index structures are untouched — so in a consistent store a task
whose projectId equals the removed id is still returned by a subsequent
`searchTasks({projectId: id})`, with the hydrated record's project field
absent (the dangling reference resolves to nothing). -/
theorem removeProject_frame_and_dangling (s : IndexStore) (pid tid : ID)
    (t : Task) (now : Nat) (hc : Consistent s) (ht : mget s.tasks tid = some t)
    (hp : t.projectId = some pid) (hpne : pid ≠ "") :
    (IndexStore.removeProject s pid).tasks = s.tasks ∧
    (IndexStore.removeProject s pid).tags = s.tags ∧
    (IndexStore.removeProject s pid).tagByName = s.tagByName ∧
    (IndexStore.removeProject s pid).tasksByProject = s.tasksByProject ∧
    (IndexStore.removeProject s pid).tasksByTag = s.tasksByTag ∧
    (IndexStore.removeProject s pid).tasksByStatus = s.tasksByStatus ∧
    (IndexStore.removeProject s pid).tasksByPriority = s.tasksByPriority ∧
    (IndexStore.removeProject s pid).overdueTasks = s.overdueTasks ∧
    ∃ item ∈ IndexStore.searchTasks (IndexStore.removeProject s pid)
        { projectId := some pid } now,
      item.task = t ∧ item.project = none := by
  refine ⟨rfl, rfl, rfl, rfl, rfl, rfl, rfl, rfl, ?_⟩
  obtain ⟨b, hbp, htb⟩ :=
    bucketMem_iff.1 ((hc.projOk pid tid).2 ⟨t, ht, hp, hpne⟩)
  have hbp' : mget (IndexStore.removeProject s pid).tasksByProject pid = some b := hbp
  have ht' : mget (IndexStore.removeProject s pid).tasks tid = some t := ht
  have hcand : tid ∈ candidateIds (IndexStore.removeProject s pid)
      { projectId := some pid } := by
    unfold candidateIds
    rw [if_neg (by simp [noFilters, idTruthy, textTruthy, hpne])]
    unfold textFiltered dueFiltered projectFiltered tagFiltered
      priorityFiltered statusFiltered
    dsimp only
    rw [if_neg hpne, hbp']
    dsimp only
    rw [List.mem_filter]
    refine ⟨mem_keysOf.2 ⟨t, ht'⟩, by simpa using htb⟩
  refine ⟨_, searchTasks_mem_items.2 ⟨tid, hcand, hydrateOne_of_task ht'⟩, rfl, ?_⟩
  show (match t.projectId with
    | some pid' =>
      if pid' = "" then none else mget (IndexStore.removeProject s pid).projects pid'
    | none => none) = none
  rw [hp]
  dsimp only
  rw [if_neg hpne]
  show mget (mdel s.projects pid) pid = none
  rw [mget_mdel]
  simp

theorem removeProject_frame_and_dangling_witness :
    ∃ item ∈ IndexStore.searchTasks (IndexStore.removeProject exStore "p1")
        { projectId := some "p1" } 100,
      item.task = exTask3 ∧ item.project = none :=
  (removeProject_frame_and_dangling exStore "p1" "c3" exTask3 100
    (consistent_runOps exOps (by decide)) (by decide) (by decide)
    (by decide)).2.2.2.2.2.2.2.2

/-- C10: when the tag-by-name index is consistent with the tag map (which
entails that tag names are unique up to case), `getOrCreate` with any string
equal to a stored tag's name up to letter case returns that existing tag,
ignoring the supplied color and leaving the store unchanged; and a repeated
`getOrCreate` with the same arguments is idempotent — the second call
returns the same result and the same store, never creating a second tag
whose name differs only in case. -/
theorem getOrCreate_existing_and_idempotent (s : IndexStore) (str : String)
    (c : Option String) (now : Nat) (nid : ID) (t : Tag)
    (hidx : s.tags.all
      (fun e => decide (mget s.tagByName (strLower e.2.name) = some e.2)) = true)
    (ht : mget s.tags t.id = some t) (hname : strLower str = strLower t.name) :
    TagService.getOrCreate s str c now nid = (SvcResult.ok t, s) ∧
    ∀ (s2 : IndexStore) (str2 : String) (c2 : Option String) (now2 : Nat)
      (nid2 : ID),
      TagService.getOrCreate (TagService.getOrCreate s2 str2 c2 now2 nid2).2
          str2 c2 now2 nid2 =
        TagService.getOrCreate s2 str2 c2 now2 nid2 := by
  constructor
  · have hmem := mget_mem ht
    have hidx' := List.all_eq_true.1 hidx _ hmem
    have hfound : IndexStore.getTagByName s str = some t := by
      unfold IndexStore.getTagByName
      rw [hname]
      exact of_decide_eq_true hidx'
    unfold TagService.getOrCreate
    rw [hfound]
  · intro s2 str2 c2 now2 nid2
    cases hg : IndexStore.getTagByName s2 str2 with
    | some ex =>
      have h1 : TagService.getOrCreate s2 str2 c2 now2 nid2 = (SvcResult.ok ex, s2) := by
        unfold TagService.getOrCreate
        rw [hg]
      rw [h1]
      exact h1
    | none =>
      have h1 : TagService.getOrCreate s2 str2 c2 now2 nid2 =
          TagService.create s2 ⟨str2, c2⟩ now2 nid2 := by
        unfold TagService.getOrCreate
        rw [hg]
      rw [h1]
      by_cases herr : validateTagInput ⟨str2, c2⟩ ≠ []
      · have h2 : TagService.create s2 ⟨str2, c2⟩ now2 nid2 =
            (SvcResult.err ("Validation failed: " ++
              joinComma ((validateTagInput ⟨str2, c2⟩).map (fun e => e.message))),
             s2) := by
          unfold TagService.create
          rw [if_pos herr]
        rw [h2]
        show TagService.getOrCreate s2 str2 c2 now2 nid2 = _
        rw [h1, h2]
      · have h2 : TagService.create s2 ⟨str2, c2⟩ now2 nid2 =
            (SvcResult.ok (createTag ⟨str2, c2⟩ now2 nid2),
             IndexStore.addTag s2 (createTag ⟨str2, c2⟩ now2 nid2)) := by
          unfold TagService.create
          rw [if_neg herr]
        rw [h2]
        have hlook : IndexStore.getTagByName
            (IndexStore.addTag s2 (createTag ⟨str2, c2⟩ now2 nid2)) str2 =
            some (createTag ⟨str2, c2⟩ now2 nid2) := by
          unfold IndexStore.getTagByName IndexStore.addTag
          dsimp only
          rw [show (createTag ⟨str2, c2⟩ now2 nid2).name = str2 from rfl]
          rw [mget_mset]
          simp
        show TagService.getOrCreate
            (IndexStore.addTag s2 (createTag ⟨str2, c2⟩ now2 nid2)) str2 c2 now2 nid2 = _
        unfold TagService.getOrCreate
        rw [hlook]

theorem getOrCreate_existing_and_idempotent_witness :
    TagService.getOrCreate tagStore "FOO" (some "red") 9 "t9" =
      (SvcResult.ok exTag, tagStore) :=
  (getOrCreate_existing_and_idempotent tagStore "FOO" (some "red") 9 "t9" exTag
    (by decide) (by decide) (by decide)).1

end Todo
